import Mathlib

/-!
Shallow embedding of the strata-poc session/persistence core.

JavaScript strings are modelled as `List Char` (`JsString`); the handful of
string operations the source uses (trim, toLowerCase, startsWith, endsWith,
includes, split, regex-replacements anchored at the ends) are modelled
directly on char lists.  `toLowerCase` is modelled on the ASCII range, which
covers every literal the source compares against; `trim` uses the common
JavaScript whitespace characters.  `localeCompare` is modelled as comparison
of code units.  Machine integers do not occur (all counts are small), so
`Nat`/`Int` are used directly.
-/

deriving instance DecidableEq for Except

namespace Strata

abbrev JsString := List Char

/-- Convert a Lean string literal to the `JsString` model. -/
def jsOf (s : String) : JsString := s.data

/-- Model of JavaScript `toLowerCase` on one character (ASCII range). -/
def lowerChar (c : Char) : Char :=
  if 'A' ≤ c ∧ c ≤ 'Z' then Char.ofNat (c.toNat + 32) else c

/-- Model of JavaScript `toLowerCase`. -/
def lowerStr (s : JsString) : JsString := s.map lowerChar

/-- The whitespace characters stripped by JavaScript `trim` / matched by `\s`
(ASCII subset; the source never manipulates exotic Unicode whitespace). -/
def isJsWs (c : Char) : Bool :=
  c = ' ' ∨ c = '\t' ∨ c = '\n' ∨ c = '\r' ∨ c = '\x0b' ∨ c = '\x0c'

/-- Model of JavaScript `trimStart`. -/
def jsTrimLeft (s : JsString) : JsString := s.dropWhile isJsWs

/-- Model of JavaScript `trimEnd`. -/
def jsTrimRight (s : JsString) : JsString := (s.reverse.dropWhile isJsWs).reverse

/-- Model of JavaScript `trim`. -/
def jsTrim (s : JsString) : JsString := jsTrimRight (jsTrimLeft s)

/-- `input.replace(/^\/+/, "")` from `src/lib/ai/file-path.ts`. -/
def stripLeadingSlashes (s : JsString) : JsString := s.dropWhile (fun c => c = '/')

/-- `input.replace(/^(files\/)+/i, "")` from `src/lib/ai/file-path.ts`:
repeatedly drop a leading case-insensitive `files/` segment. -/
def stripLegacySegments : JsString → JsString
  | a :: b :: c :: d :: e :: f :: rest =>
    if lowerChar a = 'f' ∧ lowerChar b = 'i' ∧ lowerChar c = 'l' ∧ lowerChar d = 'e' ∧
        lowerChar e = 's' ∧ lowerChar f = '/' then
      stripLegacySegments rest
    else a :: b :: c :: d :: e :: f :: rest
  | s => s

/-- `normalized.toLowerCase().startsWith("ai/")`. -/
def startsWithAiDir (s : JsString) : Bool := (jsOf "ai/").isPrefixOf (lowerStr s)

/-- `normalized.toLowerCase().endsWith(".mdc")`. -/
def endsWithMdc (s : JsString) : Bool := (jsOf ".mdc").isSuffixOf (lowerStr s)

/-- `normalized.includes("..")`. -/
def containsDotDot (s : JsString) : Bool :=
  match s with
  | [] => false
  | c :: rest =>
    match rest with
    | [] => false
    | d :: _ => (c = '.' ∧ d = '.') ∨ containsDotDot rest

/-- The distinct error kinds thrown by the path normalizers. -/
inductive AiPathError where
  | invalid
  | outOfScope
  | extensionRequired
deriving DecidableEq, Repr

/-- `normalizeAiFilePath` from `src/lib/ai/file-path.ts`. -/
def normalizeAiFilePath (path : JsString) : Except AiPathError JsString :=
  if path = [] then .error .invalid
  else
    let normalized := stripLegacySegments (stripLeadingSlashes (jsTrim path))
    if ¬ startsWithAiDir normalized then .error .outOfScope
    else if ¬ endsWithMdc normalized then .error .extensionRequired
    else if containsDotDot normalized then .error .outOfScope
    else .ok normalized

/-- `sanitizeAiFilePath` from `src/app/api/chat/route.ts` (identical to
`normalizeAiFilePath` except that it does not strip legacy `files/` segments). -/
def sanitizeAiFilePath (path : JsString) : Except AiPathError JsString :=
  if path = [] then .error .invalid
  else
    let normalized := stripLeadingSlashes (jsTrim path)
    if ¬ startsWithAiDir normalized then .error .outOfScope
    else if ¬ endsWithMdc normalized then .error .extensionRequired
    else if containsDotDot normalized then .error .outOfScope
    else .ok normalized

/-- Worker for `collapseWs`; `pendingWs` records that a whitespace run is open
and must be emitted as one space before the next non-whitespace character
(or at the end of the string). -/
def collapseWsGo (pendingWs : Bool) : JsString → JsString
  | [] => if pendingWs then [' '] else []
  | c :: rest =>
    if isJsWs c then collapseWsGo true rest
    else if pendingWs then ' ' :: c :: collapseWsGo false rest
    else c :: collapseWsGo false rest

/-- `value.replace(/\s+/g, " ")`: collapse every maximal run of whitespace to a
single space (used by `normalizeWhitespace` in `src/lib/ai/embedding.ts` and by
the title derivation in the persist route). -/
def collapseWs (s : JsString) : JsString := collapseWsGo false s

/-- `normalizeWhitespace` from `src/lib/ai/embedding.ts`:
`input.replace(/\s+/g, " ").trim()`. -/
def normalizeWhitespace (s : JsString) : JsString := jsTrim (collapseWs s)

/-- Stable insertion step modelling JavaScript's stable `Array.prototype.sort`:
an element is inserted before the first list element it compares
less-or-equal to, so earlier elements stay before equal later ones. -/
def insertBy (le : α → α → Bool) (x : α) : List α → List α
  | [] => [x]
  | y :: ys => if le x y then x :: y :: ys else y :: insertBy le x ys

/-- Stable sort modelling JavaScript's `Array.prototype.sort(comparator)`. -/
def sortBy (le : α → α → Bool) : List α → List α
  | [] => []
  | x :: xs => insertBy le x (sortBy le xs)

/-- First-occurrence deduplication, modelling `Array.from(new Set(xs))`. -/
def jsSetDedupGo [DecidableEq α] (seen : List α) : List α → List α
  | [] => []
  | x :: xs => if x ∈ seen then jsSetDedupGo seen xs else x :: jsSetDedupGo (x :: seen) xs

/-- `Array.from(new Set(xs))`. -/
def jsSetDedup [DecidableEq α] (l : List α) : List α := jsSetDedupGo [] l

/-- `Response.ok`: HTTP status in the 200–299 range. -/
def httpOk (status : Nat) : Bool := 200 ≤ status ∧ status ≤ 299

/-- Code-unit comparison of strings; models the ordering produced by the
`(a, b) => a.path.localeCompare(b.path)` comparator for the ASCII paths the
system manipulates. -/
def leChars : JsString → JsString → Bool
  | [], _ => true
  | _ :: _, [] => false
  | a :: as, b :: bs =>
    if a.toNat < b.toNat then true
    else if b.toNat < a.toNat then false
    else leChars as bs

/-! ## Token lifecycle (`src/app/api/sessions/utils.ts` and the Bitbucket client)

`refreshAccessToken` and `ensureFreshSession` perform one remote call and one
cookie mutation each; the remote response and the clock are passed in as
explicit values, and the cookie effect is returned explicitly. -/

/-- The persisted OAuth credential (`BitbucketSession` in the client module). -/
structure BitbucketSession where
  accessToken : JsString
  refreshToken : JsString
  expiresAt : Int
  sessionId : JsString
deriving DecidableEq, Repr

/-- The decoded response of the token-refresh endpoint: HTTP status plus the
three JSON fields the client reads.  `none` models an absent field; the empty
string and `0` are JavaScript-falsy and are checked separately. -/
structure RefreshHttpResponse where
  status : Nat
  accessTokenField : Option JsString
  refreshTokenField : Option JsString
  expiresInField : Option Int
deriving DecidableEq, Repr

/-- `refreshAccessToken` from the Bitbucket client: `null` when configuration
is missing, the response is non-2xx, or a field is missing/falsy; otherwise
the rotated credential with `expiresAt = Date.now() + expires_in * 1000`. -/
def refreshAccessToken (configOk : Bool) (now : Int) (session : BitbucketSession)
    (resp : RefreshHttpResponse) : Option BitbucketSession :=
  if ¬ configOk then none
  else if ¬ httpOk resp.status then none
  else
    match resp.accessTokenField, resp.refreshTokenField, resp.expiresInField with
    | some tok, some rtok, some expiresIn =>
      if tok = [] ∨ rtok = [] ∨ expiresIn = 0 then none
      else some { session with
                  accessToken := tok,
                  refreshToken := rtok,
                  expiresAt := now + expiresIn * 1000 }
    | _, _, _ => none

/-- Effect of `ensureFreshSession` on the session cookie. -/
inductive CookieEffect where
  | unchangedCookie
  | setCookie (s : BitbucketSession)
  | deletedCookie
deriving DecidableEq, Repr

/-- Result of `ensureFreshSession`: the returned credential (`none` maps to a
401 `unauthorized` response at every call site), the cookie effect, and
whether `refreshAccessToken` was invoked. -/
structure EnsureFreshOutcome where
  result : Option BitbucketSession
  cookie : CookieEffect
  refreshCalled : Bool
deriving DecidableEq, Repr

/-- `ensureFreshSession` from `src/app/api/sessions/utils.ts`:
return unchanged while more than 60 s of validity remain, otherwise refresh;
a failed refresh deletes the cookie, a successful one persists the rotated
credential. -/
def ensureFreshSession (now : Int) (session : BitbucketSession) (configOk : Bool)
    (resp : RefreshHttpResponse) : EnsureFreshOutcome :=
  if now < session.expiresAt - 60 * 1000 then
    ⟨some session, .unchangedCookie, false⟩
  else
    match refreshAccessToken configOk now session resp with
    | none => ⟨none, .deletedCookie, true⟩
    | some refreshed => ⟨some refreshed, .setCookie refreshed, true⟩

/-! ## Remote file fetch and context assembly
(`fetchFileContent` from the Bitbucket client and the context-assembly part of
`POST` in `src/app/api/sessions/route.ts`). -/

/-- An HTTP response for a raw-file request: status, optional `content-type`
header, body bytes. -/
structure HttpFileResponse where
  status : Nat
  contentType : Option JsString
  body : List Nat
deriving DecidableEq, Repr

/-- Errors thrown by `fetchFileContent`. -/
inductive FetchErr where
  | unauthorized
  | fetchFailed
deriving DecidableEq, Repr

/-- The value returned for one fetched file. -/
structure FileContent where
  content : List Nat
  truncated : Bool
deriving DecidableEq, Repr

/-- `MAX_BYTES_PER_FILE` from `fetchFileContent`. -/
def MAX_BYTES_PER_FILE : Nat := 100000

/-- `contentType && !contentType.toLowerCase().startsWith("text/")`. -/
def contentTypeNotText (ct? : Option JsString) : Bool :=
  match ct? with
  | some ct => ¬ (jsOf "text/").isPrefixOf (lowerStr ct)
  | none => false

/-- `fetchFileContent` from the Bitbucket client: 404 → `null`; 401 → throw
`unauthorized`; other non-2xx → throw; non-`text/*` content type → `null`;
otherwise the body capped at 100,000 bytes with a file-level truncation flag. -/
def fetchFileContent (resp : HttpFileResponse) : Except FetchErr (Option FileContent) :=
  if resp.status = 404 then .ok none
  else if resp.status = 401 then .error .unauthorized
  else if ¬ httpOk resp.status then .error .fetchFailed
  else if contentTypeNotText resp.contentType then .ok none
  else
    .ok (some { content := resp.body.take MAX_BYTES_PER_FILE,
                truncated := resp.body.length > MAX_BYTES_PER_FILE })

/-- One entry of the remote folder listing (`BitbucketDirectoryEntry`); only
the path matters to the session route. -/
structure ListingEntry where
  entryPath : Option JsString
deriving DecidableEq, Repr

/-- The result of `fetchAiFolderListing`. -/
structure FolderListing where
  folderExists : Bool
  files : List ListingEntry
deriving DecidableEq, Repr

/-- One context file attached to a session (`SessionContextFile`). -/
structure SessionContextFile where
  path : JsString
  content : List Nat
  truncated : Bool
deriving DecidableEq, Repr

/-- `MAX_FILES` from `src/app/api/sessions/route.ts`. -/
def MAX_FILES : Nat := 20

/-- The filter `entry.path && entry.path.toLowerCase().endsWith(".mdc")`. -/
def entryIsMdc (e : ListingEntry) : Bool :=
  match e.entryPath with
  | some p => p ≠ [] ∧ (jsOf ".mdc").isSuffixOf (lowerStr p)
  | none => false

/-- The bootstrap test applied to each fetched entry:
`path.toLowerCase().endsWith("ai-bootstrap.mdc") || path.toLowerCase() === "ai-bootstrap.mdc"`. -/
def isBootstrapPath (p : JsString) : Bool :=
  (jsOf "ai-bootstrap.mdc").isSuffixOf (lowerStr p) ∨ lowerStr p = jsOf "ai-bootstrap.mdc"

/-- The fetch loop of the session route: walk the capped entries, skip 404s
and non-text responses, collect `{path, content, truncated}` records, and
remember whether a fetched entry was the bootstrap file.  A thrown fetch
error aborts the whole assembly. -/
def collectFiles (env : JsString → HttpFileResponse) :
    List ListingEntry → Except FetchErr (List SessionContextFile × Bool)
  | [] => .ok ([], false)
  | e :: rest =>
    match e.entryPath with
    | none => collectFiles env rest
    | some p =>
      match fetchFileContent (env p) with
      | .error err => .error err
      | .ok none => collectFiles env rest
      | .ok (some fc) =>
        match collectFiles env rest with
        | .error err => .error err
        | .ok (fs, sawBootstrap) =>
          .ok ({ path := p, content := fc.content, truncated := fc.truncated } :: fs,
               isBootstrapPath p ∨ sawBootstrap)

/-- Comparator used to sort the final file list:
`files.sort((a, b) => a.path.localeCompare(b.path))`. -/
def filePathLe (a b : SessionContextFile) : Bool := leChars a.path b.path

/-- The assembled context computed by `POST /api/sessions`:
`collectedFiles` is the raw `files` array before bootstrap gating,
`contextFiles` the list actually stored on the session. -/
structure AssembledContext where
  folderExists : Bool
  contextTruncated : Bool
  contextHasBootstrap : Bool
  collectedFiles : List SessionContextFile
  contextFiles : List SessionContextFile
deriving DecidableEq, Repr

/-- The eligible entries of a listing (`mdcEntries` in the route). -/
def mdcEntries (listing : FolderListing) : List ListingEntry :=
  listing.files.filter entryIsMdc

/-- The context-assembly portion of `POST` in `src/app/api/sessions/route.ts`:
filter the listing to `.mdc` entries, cap at `MAX_FILES`, compute the
bundle-level truncation flag from the entry counts alone, fetch each capped
entry, and gate the final list on the presence of the bootstrap file
(sorting it by path when the bootstrap file is present). -/
def createSessionContext (listing : FolderListing) (env : JsString → HttpFileResponse) :
    Except FetchErr AssembledContext :=
  if ¬ listing.folderExists then
    .ok { folderExists := false, contextTruncated := false, contextHasBootstrap := false,
          collectedFiles := [], contextFiles := [] }
  else
    let entries := mdcEntries listing
    let limitedEntries := entries.take MAX_FILES
    let contextTruncated :=
      decide (listing.files.length > MAX_FILES) || decide (entries.length > limitedEntries.length)
    match collectFiles env limitedEntries with
    | .error err => .error err
    | .ok (files, hasBootstrap) =>
      .ok { folderExists := true,
            contextTruncated := contextTruncated,
            contextHasBootstrap := hasBootstrap,
            collectedFiles := files,
            contextFiles := if ¬ hasBootstrap then [] else sortBy filePathLe files }

/-! ## Retrieval / embedding index (`src/lib/ai/embedding.ts`)

Embedding vectors and cosine similarity live behind remote calls and a
vector-capable store; the similarity score each stored row / context chunk
receives against the query is therefore passed in as a rational number, and
`findRelevantContent` is modelled from the similarity values onward (filter
thresholds, ordering, merge, deduplication and truncation are all in the
source and modelled exactly). -/

/-- `CONTEXT_CHUNK_SIZE`. -/
def CONTEXT_CHUNK_SIZE : Nat := 1500

/-- `MAX_CONTEXT_CHUNKS`. -/
def MAX_CONTEXT_CHUNKS : Nat := 120

/-- `MIN_CONTEXT_SIMILARITY` (`0.25`, written in reduced form so that the
kernel can evaluate comparisons against it). -/
def MIN_CONTEXT_SIMILARITY : ℚ := ⟨1, 4, by norm_num, by norm_num⟩

/-- The similarity threshold of the durable-store query (`gt(similarity, 0.3)`,
written in reduced form). -/
def MIN_DB_SIMILARITY : ℚ := ⟨3, 10, by norm_num, by norm_num⟩

/-- `DEFAULT_RESULT_LIMIT`. -/
def DEFAULT_RESULT_LIMIT : Nat := 6

/-- A `RetrievalContextBlock`. -/
structure RetrievalContextBlock where
  id : JsString
  label : JsString
  content : JsString
deriving DecidableEq, Repr

/-- One chunk produced by `createContextChunks`; `parentId` is the
`metadata.parentId` field attached to the chunk (the owning block's id). -/
structure ContextChunk where
  chunkId : JsString
  label : JsString
  content : JsString
  parentId : JsString
  chunkIndex : Nat
deriving DecidableEq, Repr

/-- The inner slicing loop of `createContextChunks` over one normalized block
body: emit 1,500-char windows (trimmed; empty windows are skipped without
advancing the chunk index) until the body or the remaining global chunk
budget is exhausted.  `fuel` is a structural-recursion bound; every call site
passes `fuel = s.length`, which always suffices because each step consumes at
least one character.  Returns the chunks and the remaining budget. -/
def sliceChunksGo (blockId label : JsString) (fuel : Nat) (s : JsString) (idx room : Nat) :
    List ContextChunk × Nat :=
  match fuel with
  | 0 => ([], room)
  | fuel' + 1 =>
    match room, s with
    | 0, _ => ([], 0)
    | _, [] => ([], room)
    | room' + 1, c :: rest =>
      let segment := jsTrim ((c :: rest).take CONTEXT_CHUNK_SIZE)
      let tail := (c :: rest).drop CONTEXT_CHUNK_SIZE
      if segment = [] then sliceChunksGo blockId label fuel' tail idx (room' + 1)
      else
        let chunk : ContextChunk :=
          { chunkId := blockId ++ jsOf "#" ++ (Nat.repr idx).data,
            label := label, content := segment, parentId := blockId, chunkIndex := idx }
        let (more, roomLeft) := sliceChunksGo blockId label fuel' tail (idx + 1) room'
        (chunk :: more, roomLeft)

/-- The slicing loop at its canonical fuel. -/
def sliceChunks (blockId label : JsString) (s : JsString) (idx room : Nat) :
    List ContextChunk × Nat :=
  sliceChunksGo blockId label s.length s idx room

/-- The outer block loop of `createContextChunks`, threading the global
`MAX_CONTEXT_CHUNKS` budget (a zero budget models the labelled `break outer`). -/
def createContextChunksGo (room : Nat) : List RetrievalContextBlock → List ContextChunk
  | [] => []
  | b :: bs =>
    let normalized := normalizeWhitespace b.content
    if normalized = [] then createContextChunksGo room bs
    else
      let (chunks, roomLeft) := sliceChunks b.id b.label normalized 0 room
      chunks ++ createContextChunksGo roomLeft bs

/-- `createContextChunks` from `src/lib/ai/embedding.ts`. -/
def createContextChunks (blocks : List RetrievalContextBlock) : List ContextChunk :=
  createContextChunksGo MAX_CONTEXT_CHUNKS blocks

/-- The two values `result.source` can carry. -/
inductive RSource where
  | database
  | bitbucket
deriving DecidableEq, Repr

/-- `RetrievalResult`, keeping the fields the merge logic reads (`name`,
`similarity`, `source`, `metadata.parentId`). -/
structure RetrievalResult where
  name : JsString
  similarity : ℚ
  source : Option RSource
  parentId : Option JsString
deriving DecidableEq, Repr

/-- The string form of a source tag. -/
def sourceName : RSource → JsString
  | .database => jsOf "database"
  | .bitbucket => jsOf "bitbucket"

/-- The deduplication key
`` `${result.source ?? "database"}:${result.metadata?.parentId ?? result.name}` ``. -/
def dedupKey (r : RetrievalResult) : JsString :=
  sourceName (r.source.getD .database) ++ jsOf ":" ++ (r.parentId.getD r.name)

/-- Descending-similarity comparator (`(a, b) => b.similarity - a.similarity`). -/
def descSim (a b : RetrievalResult) : Bool := b.similarity ≤ a.similarity

/-- `buildContextMatches`: chunk the blocks, pair each chunk with the
similarity its embedding scores against the query embedding (positionally,
like the `embedMany` result array), drop scores below
`MIN_CONTEXT_SIMILARITY`, and sort by descending similarity. -/
def buildContextMatches (blocks : List RetrievalContextBlock) (chunkSims : List ℚ) :
    List RetrievalResult :=
  if blocks = [] then []
  else
    let chunks := createContextChunks blocks
    if chunks = [] then []
    else
      sortBy descSim
        ((List.zipWith
            (fun (chunk : ContextChunk) (sim : ℚ) =>
              ({ name := chunk.label, similarity := sim,
                 source := some .bitbucket, parentId := some chunk.parentId } : RetrievalResult))
            chunks chunkSims).filter
          (fun r => decide (r.similarity ≥ MIN_CONTEXT_SIMILARITY)))

/-- One durable embedding row together with the similarity the vector store
computes for it against the query embedding. -/
structure EmbeddingRow where
  content : JsString
  similarity : ℚ
deriving DecidableEq, Repr

/-- The durable-store query of `findRelevantContent`:
`WHERE similarity > 0.3 ORDER BY similarity DESC LIMIT limit`, mapped to
results with `source = "database"` and `metadata.parentId = name`. -/
def databaseResultsOf (rows : List EmbeddingRow) (limit : Nat) : List RetrievalResult :=
  ((sortBy (fun (a b : EmbeddingRow) => b.similarity ≤ a.similarity)
      (rows.filter (fun r => decide (r.similarity > MIN_DB_SIMILARITY)))).take limit).map
    (fun m => { name := m.content, similarity := m.similarity,
                source := some .database, parentId := some m.content })

/-- The final loop of `findRelevantContent`: walk the combined, sorted list,
skip results whose key was already seen, and stop once `limit` results are
collected (the push happens before the length check, as in the source). -/
def dedupTake (limit : Nat) (seen : List JsString) (count : Nat) :
    List RetrievalResult → List RetrievalResult
  | [] => []
  | r :: rest =>
    if dedupKey r ∈ seen then dedupTake limit seen count rest
    else if count + 1 ≥ limit then [r]
    else r :: dedupTake limit (dedupKey r :: seen) (count + 1) rest

/-- `findRelevantContent` from `src/lib/ai/embedding.ts`, from the similarity
scores onward: durable matches and context-block matches are merged, sorted
by descending similarity, deduplicated by `dedupKey`, and truncated to
`limit`. -/
def findRelevantContent (rows : List EmbeddingRow) (blocks : List RetrievalContextBlock)
    (chunkSims : List ℚ) (limit : Nat) : List RetrievalResult :=
  let databaseResults := databaseResultsOf rows limit
  let contextResults := buildContextMatches blocks chunkSims
  let combined := sortBy descSim (databaseResults ++ contextResults)
  dedupTake limit [] 0 combined

/-! ## Session store and draft queue
(`src/lib/db/schema`, `upsertAiDraft` from `src/app/api/chat/route.ts`).

Rows carry the columns the modelled operations read or write; timestamp
columns are omitted (no modelled claim mentions them). -/

/-- One row of `sessionAiDrafts`. -/
structure DraftRow where
  sessionId : JsString
  path : JsString
  content : JsString
  summary : Option JsString
  needsPersist : Bool
deriving DecidableEq, Repr

/-- One row of `sessions` (the columns the persist and chat routes use). -/
structure SessionRow where
  id : JsString
  label : Option JsString
  workspaceSlug : Option JsString
  repositorySlug : JsString
  branchName : JsString
  persistHasChanges : Bool
  persistDraftCount : Option Nat
  persistPrId : Option JsString
  persistPrUrl : Option JsString
  persistPrBranch : Option JsString
  persistPrTitle : Option JsString
deriving DecidableEq, Repr

/-- The two tables the reconciliation engine mutates. -/
structure Db where
  sessions : List SessionRow
  drafts : List DraftRow
deriving DecidableEq, Repr

/-- `SELECT ... FROM sessions WHERE id = sessionId LIMIT 1`. -/
def sessionLookup (db : Db) (sessionId : JsString) : Option SessionRow :=
  (db.sessions.filter (fun s => decide (s.id = sessionId))).head?

/-- `!session.workspaceSlug` (null or empty string are falsy). -/
def wsFalsy (ws : Option JsString) : Bool :=
  match ws with
  | none => true
  | some s => s = []

/-- `upsertAiDraft` from `src/app/api/chat/route.ts`: normalize the path,
update the existing draft row in place or insert a new one, then update the
parent session's pending flag and draft count.  Returns the updated database,
the canonical path, and `nextDraftCount`. -/
def upsertAiDraft (db : Db) (sessionId path content : JsString) (summary : Option JsString)
    (currentDraftCount : Nat) : Except AiPathError (Db × JsString × Nat) :=
  match sanitizeAiFilePath path with
  | .error e => .error e
  | .ok normalizedPath =>
    let existing :=
      (db.drafts.filter
        (fun d => decide (d.sessionId = sessionId ∧ d.path = normalizedPath))).head?
    let drafts' :=
      match existing with
      | some _ =>
        db.drafts.map (fun d =>
          if d.sessionId = sessionId ∧ d.path = normalizedPath then
            { d with content := content, summary := summary, needsPersist := true }
          else d)
      | none =>
        db.drafts ++ [{ sessionId := sessionId, path := normalizedPath, content := content,
                        summary := summary, needsPersist := true }]
    let nextDraftCount :=
      match existing with
      | some _ => currentDraftCount
      | none => currentDraftCount + 1
    let sessions' :=
      db.sessions.map (fun s =>
        if s.id = sessionId then
          { s with persistHasChanges := true, persistDraftCount := some nextDraftCount }
        else s)
    .ok (⟨sessions', drafts'⟩, normalizedPath, nextDraftCount)

/-! ## Persistence synchronizer (`POST` of the persist route, `src/unnamed/part_008`)

The remote side (branch lookup, branch creation, commit, PR creation and PR
title update) is passed in as a `PersistEnv` carrying each response; the
function returns the typed result, the new database, whether the credential
cookie was deleted, and the ordered list of remote interactions it performed.
Drafts queued by concurrent requests while the remote calls are in flight are
modelled by a list of `RaceOp` upserts applied between the remote phase and
the final database writes (the clear / recount / session update, which are
consecutive storage statements, are treated as one step). -/

/-- `MAX_PR_TITLE_LENGTH`. -/
def MAX_PR_TITLE_LENGTH : Nat := 140

/-- `truncateTitle`. -/
def truncateTitle (value : JsString) : JsString :=
  if value.length > MAX_PR_TITLE_LENGTH then
    jsTrimRight (value.take (MAX_PR_TITLE_LENGTH - 1)) ++ jsOf "…"
  else value

/-- `fileName.replace(/\.mdc$/i, "")`. -/
def stripMdcSuffix (fileName : JsString) : JsString :=
  if (jsOf ".mdc").isSuffixOf (lowerStr fileName) then fileName.take (fileName.length - 4)
  else fileName

/-- The path-hint loop of `deriveConversationSummaryTitle`: derive up to three
distinct non-empty file-name labels from the drafts' paths. -/
def collectPathHints (hints : List JsString) : List DraftRow → List JsString
  | [] => hints
  | d :: rest =>
    let rawPath := d.path
    if rawPath = [] then collectPathHints hints rest
    else
      let normalizedPath :=
        match normalizeAiFilePath rawPath with
        | .ok p => p
        | .error _ => rawPath
      let segments := normalizedPath.splitOn '/'
      let fileName := segments.getLast?.getD normalizedPath
      if fileName = [] then collectPathHints hints rest
      else
        let label := jsTrim (stripMdcSuffix fileName)
        if label = [] ∨ label ∈ hints then collectPathHints hints rest
        else
          let hints' := hints ++ [label]
          if hints'.length ≥ 3 then hints' else collectPathHints hints' rest

/-- `deriveConversationSummaryTitle` from the persist route: join up to three
distinct normalized draft summaries, else fall back to a title derived from
up to three file-name stems, else `null`. -/
def deriveConversationSummaryTitle (drafts : List DraftRow) : Option JsString :=
  let summaryParts :=
    (drafts.map (fun d => jsTrim (collapseWs (d.summary.getD [])))).filter (fun s => s ≠ [])
  if summaryParts ≠ [] then
    some (truncateTitle (List.intercalate (jsOf " · ") ((jsSetDedup summaryParts).take 3)))
  else
    let pathHints := collectPathHints [] drafts
    match pathHints with
    | [] => none
    | [onlyHint] => some (truncateTitle (jsOf "Strata updates for " ++ onlyHint))
    | _ => some (truncateTitle (jsOf "Strata updates for " ++ List.intercalate (jsOf ", ") pathHints))

/-- Whether a character survives `[^a-z0-9]` after lowercasing. -/
def isLowerAlnum (c : Char) : Bool := ('a' ≤ c ∧ c ≤ 'z') ∨ ('0' ≤ c ∧ c ≤ '9')

/-- Worker for `hyphenizeRuns`; `pendingRun` records an open run of
non-alphanumerics to be emitted as one hyphen. -/
def hyphenizeGo (pendingRun : Bool) : JsString → JsString
  | [] => if pendingRun then ['-'] else []
  | c :: rest =>
    if isLowerAlnum c then
      if pendingRun then '-' :: c :: hyphenizeGo false rest
      else c :: hyphenizeGo false rest
    else hyphenizeGo true rest

/-- `.replace(/[^a-z0-9]+/g, "-")`: collapse each run of non-alphanumerics to
one hyphen. -/
def hyphenizeRuns (s : JsString) : JsString := hyphenizeGo false s

/-- `session.id.toLowerCase().replace(/[^a-z0-9]+/g, "-").replace(/^-+|-+$/g, "")`. -/
def sanitizeSessionId (id : JsString) : JsString :=
  ((hyphenizeRuns (lowerStr id)).dropWhile (fun c => c = '-')).reverse.dropWhile (fun c => c = '-')
    |>.reverse

/-- The feature-branch name:
`session.persistPrBranch ?? "ai-session/" + (sanitizedSessionId || "updates")`. -/
def featureBranchOf (session : SessionRow) : JsString :=
  match session.persistPrBranch with
  | some b => b
  | none =>
    let sanitized := sanitizeSessionId session.id
    jsOf "ai-session/" ++ (if sanitized = [] then jsOf "updates" else sanitized)

/-- `` `Update persistency layer via session ${session.label ?? session.id}` ``. -/
def fallbackTitleOf (session : SessionRow) : JsString :=
  jsOf "Update persistency layer via session " ++ (session.label.getD session.id)

/-- The `desiredTitle` computation: caller-supplied title (whitespace
normalized) if non-empty, else the stored PR title (trimmed) if non-empty,
else the conversation summary title, else the generic fallback. -/
def desiredTitleOf (payloadTitle : Option JsString) (session : SessionRow)
    (drafts : List DraftRow) : JsString :=
  let normalizedRequestedTitle :=
    match payloadTitle with
    | some t => jsTrim (collapseWs t)
    | none => []
  let existingTitle :=
    match session.persistPrTitle with
    | some t => jsTrim t
    | none => []
  if normalizedRequestedTitle ≠ [] then normalizedRequestedTitle
  else if existingTitle ≠ [] then existingTitle
  else (deriveConversationSummaryTitle drafts).getD (fallbackTitleOf session)

/-- `drafts.map((draft) => normalizeAiFilePath(draft.path))`, propagating the
first thrown normalization error as the `map` callback does. -/
def normalizeDraftPaths : List DraftRow → Except AiPathError (List JsString)
  | [] => .ok []
  | d :: rest =>
    match normalizeAiFilePath d.path with
    | .error e => .error e
    | .ok p =>
      match normalizeDraftPaths rest with
      | .error e => .error e
      | .ok ps => .ok (p :: ps)

/-- What `fetchRepositoryBranches` yields for the destination branch:
a thrown `branch_fetch_failed`, a missing/falsy `target.hash` (covering the
404 `null` result), or a usable commit hash. -/
inductive BranchFetchOutcome where
  | thrown
  | missingHash
  | found (hash : JsString)
deriving DecidableEq, Repr

/-- The remote responses the persist route can observe, one per call site. -/
structure PersistEnv where
  configOk : Bool
  rawSessionPresent : Bool
  freshSessionOk : Bool
  branchTargetHash : BranchFetchOutcome
  createBranchStatus : Nat
  commitStatus : Nat
  prCreateStatus : Nat
  prCreateId : Option JsString
  prCreateUrl : Option JsString
  prUpdateStatus : Nat
deriving DecidableEq, Repr

/-- The remote interactions the persist route can perform, in order. -/
inductive RemoteCall where
  | ensureFreshAuth
  | fetchBranches
  | createBranch
  | commitFiles
  | createPullRequest
  | updatePullRequest
deriving DecidableEq, Repr

/-- `status` of the success payload. -/
inductive PersistStatus where
  | created
  | updated
deriving DecidableEq, Repr

/-- The typed outcomes of the persist route. -/
inductive PersistResult where
  | sessionIdRequired
  | sessionNotFound
  | workspaceSlugRequired
  | noPendingAiChanges
  | bitbucketNotConfigured
  | unauthorized
  | branchFetchThrown
  | branchUnavailable
  | failedToCreateBranch
  | aiPathError (e : AiPathError)
  | commitFailed
  | prFailed
  | prUpdateFailed
  | success (status : PersistStatus) (prUrl : Option JsString)
deriving DecidableEq, Repr

/-- Everything `POST` of the persist route produces. -/
structure PersistOutcome where
  result : PersistResult
  db : Db
  cookieDeleted : Bool
  calls : List RemoteCall
deriving DecidableEq, Repr

/-- A draft queued by a concurrent chat request while the persist call is in
flight. -/
structure RaceOp where
  sessionId : JsString
  path : JsString
  content : JsString
  summary : Option JsString
deriving DecidableEq, Repr

/-- Apply one concurrent `upsertAiDraft`; the racing chat request passes its
session's current draft count, and a normalization error leaves the database
untouched. -/
def applyRaceOp (db : Db) (op : RaceOp) : Db :=
  let currentDraftCount :=
    match sessionLookup db op.sessionId with
    | some s => s.persistDraftCount.getD 0
    | none => 0
  match upsertAiDraft db op.sessionId op.path op.content op.summary currentDraftCount with
  | .ok (db', _, _) => db'
  | .error _ => db

/-- Apply the concurrent upserts in order. -/
def applyRace (race : List RaceOp) (db : Db) : Db := race.foldl applyRaceOp db

/-- The pending drafts of a session
(`WHERE sessionId = ... AND needsPersist = true`). -/
def pendingDraftsOf (db : Db) (sessionId : JsString) : List DraftRow :=
  db.drafts.filter (fun d => decide (d.sessionId = sessionId ∧ d.needsPersist = true))

/-- `UPDATE sessionAiDrafts SET needsPersist = false WHERE sessionId = ... AND
path IN updatedPaths`. -/
def clearDrafts (sessionId : JsString) (updatedPaths : List JsString)
    (drafts : List DraftRow) : List DraftRow :=
  drafts.map (fun d =>
    if d.sessionId = sessionId ∧ d.path ∈ updatedPaths then { d with needsPersist := false }
    else d)

/-- The final storage phase of a successful persist: clear the committed
paths, recount the remaining pending drafts, and write the PR descriptor and
aggregate pending flag onto the session row. -/
def persistFinalize (sessionId : JsString) (updatedPaths : List JsString)
    (prId prUrl : Option JsString) (featureBranch desiredTitle : JsString) (db : Db) : Db :=
  let drafts2 := clearDrafts sessionId updatedPaths db.drafts
  let hasPending := decide (0 < (pendingDraftsOf ⟨db.sessions, drafts2⟩ sessionId).length)
  let sessions2 :=
    db.sessions.map (fun s =>
      if s.id = sessionId then
        { s with persistHasChanges := hasPending, persistPrId := prId, persistPrUrl := prUrl,
                 persistPrBranch := some featureBranch, persistPrTitle := some desiredTitle }
      else s)
  ⟨sessions2, drafts2⟩

/-- The branch-creation condition: the call is issued only when the session
has no recorded feature branch, and `409` counts as success. -/
def branchCreateFailed (env : PersistEnv) (session : SessionRow) : Bool :=
  session.persistPrBranch.isNone
    && !(httpOk env.createBranchStatus || env.createBranchStatus == 409)

/-- The PR step of the persist route, given the commit succeeded: create a PR
when none is recorded, else issue a title-only update when the desired title
is non-empty and differs from the stored one.  Returns the PR id and url to
store together with the remote calls made, or the typed failure. -/
def prStep (env : PersistEnv) (session : SessionRow) (desiredTitle : JsString) :
    Except (PersistResult × List RemoteCall) (Option JsString × Option JsString × List RemoteCall) :=
  match session.persistPrId with
  | none =>
    if ¬ httpOk env.prCreateStatus then .error (.prFailed, [.createPullRequest])
    else .ok (env.prCreateId, env.prCreateUrl, [.createPullRequest])
  | some pid =>
    let needUpdate := desiredTitle ≠ [] ∧ desiredTitle ≠ session.persistPrTitle.getD []
    if needUpdate then
      if ¬ httpOk env.prUpdateStatus then .error (.prUpdateFailed, [.updatePullRequest])
      else .ok (some pid, session.persistPrUrl, [.updatePullRequest])
    else .ok (some pid, session.persistPrUrl, [])

/-- `POST` of the persist route (`src/unnamed/part_008`), from the stored
session and drafts and the remote responses to the final typed result,
database state, cookie effect and remote-call trace. -/
def persistPost (sessionId? : Option JsString) (payloadTitle : Option JsString)
    (env : PersistEnv) (race : List RaceOp) (db : Db) : PersistOutcome :=
  match sessionId? with
  | none => ⟨.sessionIdRequired, db, false, []⟩
  | some sessionId =>
    match sessionLookup db sessionId with
    | none => ⟨.sessionNotFound, db, false, []⟩
    | some session =>
      if wsFalsy session.workspaceSlug then ⟨.workspaceSlugRequired, db, false, []⟩
      else
        let drafts := pendingDraftsOf db sessionId
        if drafts.isEmpty then ⟨.noPendingAiChanges, db, false, []⟩
        else if ¬ env.configOk then ⟨.bitbucketNotConfigured, db, false, []⟩
        else if ¬ env.rawSessionPresent then ⟨.unauthorized, db, false, []⟩
        else if ¬ env.freshSessionOk then ⟨.unauthorized, db, true, [.ensureFreshAuth]⟩
        else
          let calls1 := [RemoteCall.ensureFreshAuth, RemoteCall.fetchBranches]
          match env.branchTargetHash with
          | .thrown => ⟨.branchFetchThrown, db, false, calls1⟩
          | .missingHash => ⟨.branchUnavailable, db, false, calls1⟩
          | .found _ =>
            let featureBranch := featureBranchOf session
            let calls2 :=
              calls1 ++ (if session.persistPrBranch.isNone then [RemoteCall.createBranch] else [])
            if branchCreateFailed env session then ⟨.failedToCreateBranch, db, false, calls2⟩
            else
              let desiredTitle := desiredTitleOf payloadTitle session drafts
              match normalizeDraftPaths drafts with
              | .error e => ⟨.aiPathError e, db, false, calls2⟩
              | .ok _ =>
                let calls3 := calls2 ++ [RemoteCall.commitFiles]
                if ¬ httpOk env.commitStatus then
                  if env.commitStatus = 401 then ⟨.unauthorized, db, true, calls3⟩
                  else ⟨.commitFailed, db, false, calls3⟩
                else
                  match prStep env session desiredTitle with
                  | .error (res, prCalls) => ⟨res, db, false, calls3 ++ prCalls⟩
                  | .ok (prId, prUrl, prCalls) =>
                    let db1 := applyRace race db
                    let updatedPaths := drafts.map (fun d => d.path)
                    let db2 :=
                      persistFinalize sessionId updatedPaths prId prUrl featureBranch
                        desiredTitle db1
                    ⟨.success (if session.persistPrId.isSome then .updated else .created) prUrl,
                     db2, false, calls3 ++ prCalls⟩

/-! ## Supporting lemmas -/

/-- A non-2xx refresh response always yields `null` from `refreshAccessToken`. -/
theorem refreshAccessToken_eq_none_of_notOk (configOk : Bool) (now : Int)
    (session : BitbucketSession) (resp : RefreshHttpResponse)
    (h : httpOk resp.status = false) :
    refreshAccessToken configOk now session resp = none := by
  unfold refreshAccessToken
  by_cases hc : configOk = true <;> simp [hc, h]

/-- The insert branch of `upsertAiDraft`: with no existing row for the key,
the draft is appended and the draft count increments. -/
theorem upsertAiDraft_insert_spec (db : Db) (sessionId path content : JsString)
    (summary : Option JsString) (n0 : Nat) (np : JsString)
    (hnorm : sanitizeAiFilePath path = .ok np)
    (hnone : ∀ d ∈ db.drafts, ¬ (d.sessionId = sessionId ∧ d.path = np)) :
    upsertAiDraft db sessionId path content summary n0 =
      .ok (⟨db.sessions.map (fun s =>
              if s.id = sessionId then
                { s with persistHasChanges := true, persistDraftCount := some (n0 + 1) }
              else s),
            db.drafts ++ [⟨sessionId, np, content, summary, true⟩]⟩, np, n0 + 1) := by
  have hfind : db.drafts.find?
      (fun d => decide (d.sessionId = sessionId) && decide (d.path = np)) = none := by
    rw [List.find?_eq_none]
    intro d hd
    simpa using hnone d hd
  unfold upsertAiDraft
  rw [hnorm]
  simp [hfind]

/-- The update branch of `upsertAiDraft`: with an existing row for the key,
the row is rewritten in place and the draft count is left as passed in. -/
theorem upsertAiDraft_update_spec (db : Db) (sessionId path content : JsString)
    (summary : Option JsString) (n0 : Nat) (np : JsString)
    (hnorm : sanitizeAiFilePath path = .ok np)
    (hexist : ∃ d ∈ db.drafts, d.sessionId = sessionId ∧ d.path = np) :
    upsertAiDraft db sessionId path content summary n0 =
      .ok (⟨db.sessions.map (fun s =>
              if s.id = sessionId then
                { s with persistHasChanges := true, persistDraftCount := some n0 }
              else s),
            db.drafts.map (fun d =>
              if d.sessionId = sessionId ∧ d.path = np then
                { d with content := content, summary := summary, needsPersist := true }
              else d)⟩, np, n0) := by
  have hsome : (db.drafts.find?
      (fun d => decide (d.sessionId = sessionId) && decide (d.path = np))).isSome := by
    rw [List.find?_isSome]
    obtain ⟨d, hd, h1, h2⟩ := hexist
    exact ⟨d, hd, by simp [h1, h2]⟩
  obtain ⟨row, hrow⟩ := Option.isSome_iff_exists.mp hsome
  unfold upsertAiDraft
  rw [hnorm]
  simp [hrow]

/-- A string none of whose characters is a dot contains no `..`. -/
theorem containsDotDot_eq_false_of_no_dot :
    ∀ l : JsString, (∀ c ∈ l, c ≠ '.') → containsDotDot l = false := by
  intro l
  induction l with
  | nil => intro _; rfl
  | cons c t ih =>
    intro h
    cases t with
    | nil => rfl
    | cons d t' =>
      have hc : ¬ (c = '.') := h c (by simp)
      have ht : ∀ x ∈ d :: t', x ≠ '.' := fun x hx => h x (by simp [hx])
      simp [containsDotDot, hc]
      simpa [containsDotDot] using ih ht

/-- `..`-containment survives a cons. -/
theorem containsDotDot_cons_of (c : Char) (t : JsString) (h : containsDotDot t = true) :
    containsDotDot (c :: t) = true := by
  cases t with
  | nil => simp [containsDotDot] at h
  | cons d u => simp [containsDotDot] at h ⊢; tauto

/-- Dropping a dot-free front keeps `..`-containment. -/
theorem containsDotDot_of_append_left :
    ∀ (a b : JsString), (∀ c ∈ a, c ≠ '.') → containsDotDot (a ++ b) = true →
      containsDotDot b = true := by
  intro a
  induction a with
  | nil => intro b _ h; simpa using h
  | cons c t ih =>
    intro b h hcdd
    have hc : ¬ (c = '.') := h c (by simp)
    have ht : ∀ x ∈ t, x ≠ '.' := fun x hx => h x (by simp [hx])
    rcases htb : t ++ b with _ | ⟨d, u⟩
    · rw [List.cons_append, htb] at hcdd
      simp [containsDotDot] at hcdd
    · rw [List.cons_append, htb] at hcdd
      simp [containsDotDot, hc] at hcdd
      exact ih b ht (by rw [htb]; simpa [containsDotDot] using hcdd)

/-- Dropping a dot-free tail keeps `..`-containment. -/
theorem containsDotDot_of_append_right :
    ∀ (b w : JsString), (∀ c ∈ w, c ≠ '.') → containsDotDot (b ++ w) = true →
      containsDotDot b = true := by
  intro b
  induction b with
  | nil =>
    intro w hw h
    rw [List.nil_append] at h
    rw [containsDotDot_eq_false_of_no_dot w hw] at h
    exact absurd h (by simp)
  | cons c t ih =>
    intro w hw hcdd
    rcases htw : t ++ w with _ | ⟨d, u⟩
    · rw [List.cons_append, htw] at hcdd
      simp [containsDotDot] at hcdd
    · rw [List.cons_append, htw] at hcdd
      simp [containsDotDot] at hcdd
      rcases hcdd with ⟨hc, hd⟩ | hrest
      · cases t with
        | nil =>
          exfalso
          rw [List.nil_append] at htw
          exact hw d (by rw [htw]; simp) (by exact hd)
        | cons e t2 =>
          rw [List.cons_append] at htw
          injection htw with he _
          subst hc
          subst hd
          subst he
          simp [containsDotDot]
      · exact containsDotDot_cons_of c _
          (ih w hw (by rw [htw]; simpa [containsDotDot] using hrest))

/-- `trim` keeps `..`-containment. -/
theorem containsDotDot_jsTrim (s : JsString) (h : containsDotDot s = true) :
    containsDotDot (jsTrim s) = true := by
  have hws : ∀ c : Char, isJsWs c = true → c ≠ '.' := by
    intro c hc hEq
    subst hEq
    exact absurd hc (by decide)
  have hleft : containsDotDot (jsTrimLeft s) = true := by
    apply containsDotDot_of_append_left (s.takeWhile isJsWs) (jsTrimLeft s)
    · exact fun c hc => hws c (List.mem_takeWhile_imp hc)
    · rw [show s.takeWhile isJsWs ++ jsTrimLeft s = s from
        List.takeWhile_append_dropWhile isJsWs s]
      exact h
  set t := jsTrimLeft s
  apply containsDotDot_of_append_right (jsTrimRight t) ((t.reverse.takeWhile isJsWs).reverse)
  · intro c hc
    exact hws c (List.mem_takeWhile_imp (List.mem_reverse.mp hc))
  · have hsplit : jsTrimRight t ++ (t.reverse.takeWhile isJsWs).reverse = t := by
      rw [jsTrimRight, ← List.reverse_append, List.takeWhile_append_dropWhile isJsWs t.reverse,
        List.reverse_reverse]
    rw [hsplit]
    exact hleft

/-- Stripping leading slashes keeps `..`-containment. -/
theorem containsDotDot_stripLeadingSlashes (s : JsString) (h : containsDotDot s = true) :
    containsDotDot (stripLeadingSlashes s) = true := by
  apply containsDotDot_of_append_left (s.takeWhile (fun c => c = '/')) (stripLeadingSlashes s)
  · intro c hc hEq
    subst hEq
    exact absurd (List.mem_takeWhile_imp hc) (by decide)
  · rw [show s.takeWhile (fun c => c = '/') ++ stripLeadingSlashes s = s from
      List.takeWhile_append_dropWhile _ s]
    exact h

/-- Stripping legacy `files/` segments keeps `..`-containment. -/
theorem containsDotDot_stripLegacySegments (s : JsString) (h : containsDotDot s = true) :
    containsDotDot (stripLegacySegments s) = true := by
  induction s using stripLegacySegments.induct with
  | case1 a b c d e f rest hcond ih =>
    rw [stripLegacySegments, if_pos hcond]
    obtain ⟨h1, h2, h3, h4, h5, h6⟩ := hcond
    apply ih
    apply containsDotDot_of_append_left [a, b, c, d, e, f] rest
    · intro x hx hEq
      subst hEq
      have hdot : lowerChar '.' = '.' := by decide
      simp only [List.mem_cons, List.not_mem_nil, or_false] at hx
      rcases hx with h' | h' | h' | h' | h' | h'
      · rw [← h', hdot] at h1; exact absurd h1 (by decide)
      · rw [← h', hdot] at h2; exact absurd h2 (by decide)
      · rw [← h', hdot] at h3; exact absurd h3 (by decide)
      · rw [← h', hdot] at h4; exact absurd h4 (by decide)
      · rw [← h', hdot] at h5; exact absurd h5 (by decide)
      · rw [← h', hdot] at h6; exact absurd h6 (by decide)
    · exact h
  | case2 a b c d e f rest hcond =>
    rw [stripLegacySegments, if_neg hcond]
    exact h
  | case3 s hshape =>
    have : stripLegacySegments s = s := by
      rcases s with _ | ⟨a, _ | ⟨b, _ | ⟨c, _ | ⟨d, _ | ⟨e, _ | ⟨f, rest⟩⟩⟩⟩⟩⟩ <;>
        first
          | rfl
          | exact absurd rfl (by intro hEq; exact hshape a b c d e f rest hEq)
    rw [this]
    exact h

/-- JavaScript whitespace characters are unchanged by `toLowerCase`. -/
theorem lowerChar_eq_self_of_ws (c : Char) (h : isJsWs c = true) : lowerChar c = c := by
  simp only [isJsWs, decide_eq_true_eq] at h
  rcases h with rfl | rfl | rfl | rfl | rfl | rfl <;> decide

/-- Inversion of a successful `normalizeAiFilePath`: the canonical path passed
the prefix, extension and traversal checks. -/
theorem normalizeAiFilePath_ok_inversion (s p : JsString)
    (h : normalizeAiFilePath s = .ok p) :
    startsWithAiDir p = true ∧ endsWithMdc p = true ∧ containsDotDot p = false := by
  unfold normalizeAiFilePath at h
  by_cases h0 : s = []
  · rw [if_pos h0] at h
    exact absurd h (by simp)
  · rw [if_neg h0] at h
    dsimp only [] at h
    split_ifs at h with h1 h2 h3 <;>
      simp only [reduceCtorEq, Except.ok.injEq] at h
    subst h
    exact ⟨by simpa using h1, by simpa using h2, by simpa using h3⟩

/-- A canonical path starts with a character lowering to `'a'` and ends with a
character lowering to `'c'`. -/
theorem canonical_shape (p : JsString)
    (hpre : startsWithAiDir p = true) (hext : endsWithMdc p = true) :
    ∃ c0 rest d0 t, p = c0 :: rest ∧ p.reverse = d0 :: t ∧
      lowerChar c0 = 'a' ∧ lowerChar d0 = 'c' := by
  cases p with
  | nil => exact absurd hpre (by decide)
  | cons c0 rest =>
    rcases hrev : (c0 :: rest).reverse with _ | ⟨d0, t⟩
    · rw [List.reverse_eq_nil_iff] at hrev
      exact absurd hrev (by simp)
    · refine ⟨c0, rest, d0, t, rfl, rfl, ?_, ?_⟩
      · simp [startsWithAiDir, lowerStr, jsOf, List.isPrefixOf] at hpre
        exact hpre.1.symm
      · rw [endsWithMdc, List.isSuffixOf] at hext
        have hmaprev : (lowerStr (c0 :: rest)).reverse = lowerChar d0 :: t.map lowerChar := by
          rw [lowerStr, ← List.map_reverse, hrev, List.map_cons]
        rw [hmaprev] at hext
        simp [jsOf, List.isPrefixOf] at hext
        exact hext.1.symm

/-- A character lowering to a non-uppercase letter is not whitespace. -/
theorem not_ws_of_lowerChar_letter (c : Char) (x : Char) (hx : lowerChar c = x)
    (hxws : isJsWs x = false) : isJsWs c = false := by
  by_cases hws : isJsWs c = true
  · rw [lowerChar_eq_self_of_ws c hws] at hx
    rw [hx] at hws
    rw [hws] at hxws
    exact absurd hxws (by simp)
  · simpa using hws

/-- The strip pipeline fixes a string whose head lowers to `'a'` and whose
last character lowers to `'c'`. -/
theorem strip_pipeline_fixed (c0 d0 : Char) (rest t : JsString)
    (hc0 : lowerChar c0 = 'a') (hd0 : lowerChar d0 = 'c')
    (hrev : (c0 :: rest).reverse = d0 :: t) :
    stripLegacySegments (stripLeadingSlashes (jsTrim (c0 :: rest))) = c0 :: rest := by
  have hc0ws : isJsWs c0 = false := not_ws_of_lowerChar_letter c0 'a' hc0 (by decide)
  have hd0ws : isJsWs d0 = false := not_ws_of_lowerChar_letter d0 'c' hd0 (by decide)
  have htrimL : jsTrimLeft (c0 :: rest) = c0 :: rest := by
    rw [jsTrimLeft, List.dropWhile_cons, hc0ws]
    simp
  have htrimR : jsTrimRight (c0 :: rest) = c0 :: rest := by
    rw [jsTrimRight, hrev, List.dropWhile_cons, hd0ws]
    simp [← hrev]
  have htrim : jsTrim (c0 :: rest) = c0 :: rest := by
    rw [jsTrim, htrimL, htrimR]
  have hslash : stripLeadingSlashes (c0 :: rest) = c0 :: rest := by
    rw [stripLeadingSlashes, List.dropWhile_cons]
    have : ¬ (c0 = '/') := by
      intro hEq
      rw [hEq] at hc0
      exact absurd hc0 (by decide)
    simp [this]
  have hlegacy : stripLegacySegments (c0 :: rest) = c0 :: rest := by
    have hcf : ¬ (lowerChar c0 = 'f') := by
      rw [hc0]
      decide
    rcases rest with _ | ⟨b, _ | ⟨c, _ | ⟨d, _ | ⟨e, _ | ⟨f, rest'⟩⟩⟩⟩⟩
    · rfl
    · rfl
    · rfl
    · rfl
    · rfl
    · rw [stripLegacySegments]
      rw [if_neg (fun hcond => hcf hcond.1)]
  rw [htrim, hslash, hlegacy]

/-- `insertBy` produces a permutation of consing. -/
theorem insertBy_perm (le : α → α → Bool) (x : α) :
    ∀ l : List α, (insertBy le x l).Perm (x :: l) := by
  intro l
  induction l with
  | nil => rfl
  | cons y ys ih =>
    rw [insertBy]
    by_cases h : le x y = true
    · rw [if_pos h]
    · rw [if_neg h]
      exact (List.Perm.cons y ih).trans (List.Perm.swap x y ys)

/-- `sortBy` permutes its input. -/
theorem sortBy_perm (le : α → α → Bool) : ∀ l : List α, (sortBy le l).Perm l := by
  intro l
  induction l with
  | nil => rfl
  | cons x xs ih =>
    rw [sortBy]
    exact (insertBy_perm le x (sortBy le xs)).trans (List.Perm.cons x ih)

/-- Membership in `insertBy`. -/
theorem mem_insertBy (le : α → α → Bool) (x : α) (l : List α) (z : α) :
    z ∈ insertBy le x l ↔ z = x ∨ z ∈ l := by
  rw [(insertBy_perm le x l).mem_iff]
  simp

/-- `insertBy` preserves sortedness for a total transitive comparator. -/
theorem insertBy_pairwise (le : α → α → Bool)
    (htot : ∀ a b, le a b = true ∨ le b a = true)
    (htrans : ∀ a b c, le a b = true → le b c = true → le a c = true) (x : α) :
    ∀ l : List α, l.Pairwise (fun a b => le a b = true) →
      (insertBy le x l).Pairwise (fun a b => le a b = true) := by
  intro l
  induction l with
  | nil => intro _; simp [insertBy]
  | cons y ys ih =>
    intro hl
    rw [List.pairwise_cons] at hl
    rw [insertBy]
    by_cases h : le x y = true
    · rw [if_pos h]
      refine List.Pairwise.cons ?_ (List.Pairwise.cons hl.1 hl.2)
      intro z hz
      rcases List.mem_cons.mp hz with rfl | hz'
      · exact h
      · exact htrans x y z h (hl.1 z hz')
    · rw [if_neg h]
      refine List.Pairwise.cons ?_ (ih hl.2)
      intro z hz
      rcases (mem_insertBy le x ys z).mp hz with rfl | hz'
      · rcases htot z y with h' | h'
        · exact absurd h' h
        · exact h'
      · exact hl.1 z hz'

/-- `sortBy` sorts for a total transitive comparator. -/
theorem sortBy_pairwise (le : α → α → Bool)
    (htot : ∀ a b, le a b = true ∨ le b a = true)
    (htrans : ∀ a b c, le a b = true → le b c = true → le a c = true) :
    ∀ l : List α, (sortBy le l).Pairwise (fun a b => le a b = true) := by
  intro l
  induction l with
  | nil => simp [sortBy]
  | cons x xs ih =>
    rw [sortBy]
    exact insertBy_pairwise le htot htrans x (sortBy le xs) ih

/-- The descending-similarity comparator is total. -/
theorem descSim_total (a b : RetrievalResult) : descSim a b = true ∨ descSim b a = true := by
  simp only [descSim, decide_eq_true_eq]
  exact le_total b.similarity a.similarity

/-- The descending-similarity comparator is transitive. -/
theorem descSim_trans (a b c : RetrievalResult) (h1 : descSim a b = true)
    (h2 : descSim b c = true) : descSim a c = true := by
  simp only [descSim, decide_eq_true_eq] at h1 h2 ⊢
  exact le_trans h2 h1

/-- Code-unit string comparison is total. -/
theorem leChars_total : ∀ a b : JsString, leChars a b = true ∨ leChars b a = true := by
  intro a
  induction a with
  | nil => intro b; left; rfl
  | cons x xs ih =>
    intro b
    cases b with
    | nil => right; rfl
    | cons y ys =>
      rw [leChars, leChars]
      by_cases h1 : x.toNat < y.toNat
      · left; rw [if_pos h1]
      · by_cases h2 : y.toNat < x.toNat
        · right; rw [if_pos h2]
        · rw [if_neg h1, if_neg h2, if_neg h2, if_neg h1]
          exact ih ys

/-- Code-unit string comparison is transitive. -/
theorem leChars_trans : ∀ a b c : JsString, leChars a b = true → leChars b c = true →
    leChars a c = true := by
  intro a
  induction a with
  | nil => intro b c _ _; rfl
  | cons x xs ih =>
    intro b c hab hbc
    cases b with
    | nil => rw [leChars] at hab; exact absurd hab (by simp)
    | cons y ys =>
      cases c with
      | nil => rw [leChars] at hbc; exact absurd hbc (by simp)
      | cons z zs =>
        rw [leChars] at hab hbc ⊢
        by_cases hxy : x.toNat < y.toNat
        · by_cases hyz : y.toNat < z.toNat
          · rw [if_pos (by omega : x.toNat < z.toNat)]
          · by_cases hzy : z.toNat < y.toNat
            · rw [if_neg hyz, if_pos hzy] at hbc
              exact absurd hbc (by simp)
            · rw [if_pos (by omega : x.toNat < z.toNat)]
        · by_cases hyx : y.toNat < x.toNat
          · rw [if_neg hxy, if_pos hyx] at hab
            exact absurd hab (by simp)
          · by_cases hyz : y.toNat < z.toNat
            · rw [if_pos (by omega : x.toNat < z.toNat)]
            · by_cases hzy : z.toNat < y.toNat
              · rw [if_neg hyz, if_pos hzy] at hbc
                exact absurd hbc (by simp)
              · rw [if_neg (by omega : ¬ x.toNat < z.toNat),
                  if_neg (by omega : ¬ z.toNat < x.toNat)]
                rw [if_neg hxy, if_neg hyx] at hab
                rw [if_neg hyz, if_neg hzy] at hbc
                exact ih ys zs hab hbc

/-- The deduplicating truncation loop returns a sublist of its input. -/
theorem dedupTake_sublist (limit : Nat) :
    ∀ (l : List RetrievalResult) (seen : List JsString) (count : Nat),
      (dedupTake limit seen count l).Sublist l := by
  intro l
  induction l with
  | nil => intro seen count; simp [dedupTake]
  | cons r rest ih =>
    intro seen count
    rw [dedupTake]
    by_cases h1 : dedupKey r ∈ seen
    · rw [if_pos h1]
      exact (ih seen count).cons r
    · rw [if_neg h1]
      by_cases h2 : count + 1 ≥ limit
      · rw [if_pos h2]
        simp
      · rw [if_neg h2]
        exact (ih (dedupKey r :: seen) (count + 1)).cons₂ r

/-- The deduplicating truncation loop emits at most `limit - count` results. -/
theorem dedupTake_length (limit : Nat) :
    ∀ (l : List RetrievalResult) (seen : List JsString) (count : Nat), count < limit →
      (dedupTake limit seen count l).length ≤ limit - count := by
  intro l
  induction l with
  | nil => intro seen count h; simp [dedupTake]
  | cons r rest ih =>
    intro seen count hcount
    rw [dedupTake]
    by_cases h1 : dedupKey r ∈ seen
    · rw [if_pos h1]
      exact ih seen count hcount
    · rw [if_neg h1]
      by_cases h2 : count + 1 ≥ limit
      · rw [if_pos h2]
        simp
        omega
      · rw [if_neg h2]
        have := ih (dedupKey r :: seen) (count + 1) (by omega)
        simp only [List.length_cons]
        omega

/-- The deduplicating truncation loop never emits two results with the same
key, and never emits a key it has already seen. -/
theorem dedupTake_keys (limit : Nat) :
    ∀ (l : List RetrievalResult) (seen : List JsString) (count : Nat),
      (∀ r ∈ dedupTake limit seen count l, dedupKey r ∉ seen) ∧
      (dedupTake limit seen count l).Pairwise (fun a b => dedupKey a ≠ dedupKey b) := by
  intro l
  induction l with
  | nil => intro seen count; simp [dedupTake]
  | cons r rest ih =>
    intro seen count
    rw [dedupTake]
    by_cases h1 : dedupKey r ∈ seen
    · rw [if_pos h1]
      exact ih seen count
    · rw [if_neg h1]
      by_cases h2 : count + 1 ≥ limit
      · rw [if_pos h2]
        constructor
        · intro x hx
          rw [List.mem_singleton] at hx
          subst hx
          exact h1
        · simp
      · rw [if_neg h2]
        obtain ⟨ihseen, ihpair⟩ := ih (dedupKey r :: seen) (count + 1)
        constructor
        · intro x hx
          rcases List.mem_cons.mp hx with rfl | hx'
          · exact h1
          · intro hmem
            exact ihseen x hx' (by simp [hmem])
        · refine List.Pairwise.cons ?_ ihpair
          intro x hx hEq
          exact ihseen x hx (by simp [← hEq])

/-- `fetchFileContent` on a 2xx text response returns the capped body. -/
theorem fetchFileContent_text_spec (resp : HttpFileResponse)
    (hok : httpOk resp.status = true) (hct : contentTypeNotText resp.contentType = false) :
    fetchFileContent resp =
      .ok (some ⟨resp.body.take MAX_BYTES_PER_FILE,
        decide (resp.body.length > MAX_BYTES_PER_FILE)⟩) := by
  have hbounds : 200 ≤ resp.status ∧ resp.status ≤ 299 := by
    simpa [httpOk] using hok
  unfold fetchFileContent
  rw [if_neg (by omega : ¬ resp.status = 404), if_neg (by omega : ¬ resp.status = 401),
    if_neg (by simp [hok]), if_neg (by simp [hct])]

/-- When every capped entry fetches as a 2xx text file, the collection loop
succeeds and collects one file per entry. -/
theorem collectFiles_all_ok (env : JsString → HttpFileResponse) :
    ∀ entries : List ListingEntry,
      (∀ e ∈ entries, ∃ p, e.entryPath = some p ∧
        httpOk (env p).status = true ∧ contentTypeNotText (env p).contentType = false) →
      ∃ fs b, collectFiles env entries = .ok (fs, b) ∧ fs.length = entries.length := by
  intro entries
  induction entries with
  | nil => intro _; exact ⟨[], false, rfl, rfl⟩
  | cons e rest ih =>
    intro h
    obtain ⟨p, hp, hok, hct⟩ := h e (by simp)
    obtain ⟨fs, b, hrec, hlen⟩ := ih (fun x hx => h x (by simp [hx]))
    simp only [collectFiles, hp, fetchFileContent_text_spec (env p) hok hct, hrec]
    exact ⟨_, _, rfl, by simp [hlen]⟩

/-- The bundle-level truncation flag depends only on the listing. -/
theorem createSessionContext_truncated_formula (listing : FolderListing)
    (env : JsString → HttpFileResponse) (ctx : AssembledContext)
    (h : createSessionContext listing env = .ok ctx) :
    ctx.contextTruncated =
      (listing.folderExists &&
        (decide (listing.files.length > MAX_FILES) ||
          decide ((mdcEntries listing).length > ((mdcEntries listing).take MAX_FILES).length))) := by
  unfold createSessionContext at h
  by_cases hex : listing.folderExists = true
  · rw [if_neg (by simp [hex])] at h
    rcases heq : collectFiles env ((mdcEntries listing).take MAX_FILES) with err | fsb
    · simp only [heq] at h
      exact absurd h (by simp)
    · obtain ⟨fs, b⟩ := fsb
      simp only [heq] at h
      have := Except.ok.inj h
      rw [← this, hex]
      simp
  · have hex' : listing.folderExists = false := by simpa using hex
    rw [if_pos (by simp [hex'])] at h
    have := Except.ok.inj h
    rw [← this, hex']
    simp

/-- The bootstrap flag records exactly whether some fetched file has the
bootstrap name. -/
theorem collectFiles_bootstrap (env : JsString → HttpFileResponse) :
    ∀ (entries : List ListingEntry) (fs : List SessionContextFile) (b : Bool),
      collectFiles env entries = .ok (fs, b) →
      b = fs.any (fun f => isBootstrapPath f.path) := by
  intro entries
  induction entries with
  | nil =>
    intro fs b h
    rw [collectFiles] at h
    obtain ⟨h1, h2⟩ := Prod.mk.injEq .. ▸ Except.ok.inj h
    rw [← h1, ← h2]
    rfl
  | cons e rest ih =>
    intro fs b h
    rw [collectFiles] at h
    rcases hp : e.entryPath with _ | p
    · simp only [hp] at h
      exact ih fs b h
    · simp only [hp] at h
      rcases hf : fetchFileContent (env p) with err | fc
      · simp only [hf] at h
        exact absurd h (by simp)
      · simp only [hf] at h
        rcases fc with _ | fc'
        · exact ih fs b h
        · rcases hrec : collectFiles env rest with err | fsb
          · simp only [hrec] at h
            exact absurd h (by simp)
          · obtain ⟨fs', b'⟩ := fsb
            simp only [hrec] at h
            obtain ⟨h1, h2⟩ := Prod.mk.injEq .. ▸ Except.ok.inj h
            rw [← h1, ← h2]
            have := ih fs' b' hrec
            simp [List.any_cons, ← this]

/-- The pending-draft count is positive exactly when some draft of the
session still needs persisting. -/
theorem pendingDraftsOf_pos_iff (db : Db) (sid : JsString) :
    0 < (pendingDraftsOf db sid).length ↔
      ∃ d ∈ db.drafts, d.sessionId = sid ∧ d.needsPersist = true := by
  rw [pendingDraftsOf]
  constructor
  · intro h
    obtain ⟨d, hd⟩ := List.exists_mem_of_length_pos h
    have hmem := List.mem_filter.mp hd
    exact ⟨d, hmem.1, by simpa using hmem.2⟩
  · rintro ⟨d, hd, h1, h2⟩
    exact List.length_pos_of_mem (List.mem_filter.mpr ⟨hd, by simp [h1, h2]⟩)

/-- The PR step succeeds whenever PR creation (when needed) and PR update
answer 2xx. -/
theorem prStep_ok (env : PersistEnv) (session : SessionRow) (desiredTitle : JsString)
    (hprc : session.persistPrId = none → httpOk env.prCreateStatus = true)
    (hpru : httpOk env.prUpdateStatus = true) :
    ∃ prId prUrl prCalls, prStep env session desiredTitle = .ok (prId, prUrl, prCalls) := by
  unfold prStep
  rcases hpid : session.persistPrId with _ | pid
  · simp only [hpid]
    rw [if_neg (by simp [hprc hpid])]
    exact ⟨_, _, _, rfl⟩
  · simp only [hpid]
    by_cases hupd : desiredTitle ≠ [] ∧ desiredTitle ≠ session.persistPrTitle.getD []
    · rw [if_pos hupd, if_neg (by simp [hpru])]
      exact ⟨_, _, _, rfl⟩
    · rw [if_neg hupd]
      exact ⟨_, _, _, rfl⟩

/-- A racing upsert leaves behind a pending draft row at its canonical path. -/
theorem applyRaceOp_establishes (db : Db) (op : RaceOp) (np : JsString)
    (hnorm : sanitizeAiFilePath op.path = .ok np) :
    ∃ d ∈ (applyRaceOp db op).drafts,
      d.sessionId = op.sessionId ∧ d.path = np ∧ d.needsPersist = true := by
  unfold applyRaceOp
  by_cases hex : ∃ d ∈ db.drafts, d.sessionId = op.sessionId ∧ d.path = np
  · simp only [upsertAiDraft_update_spec db op.sessionId op.path op.content op.summary _ np
      hnorm hex]
    obtain ⟨d, hd, h1, h2⟩ := hex
    refine ⟨_, List.mem_map.mpr ⟨d, hd, rfl⟩, ?_⟩
    rw [if_pos ⟨h1, h2⟩]
    exact ⟨h1, h2, rfl⟩
  · have hnone : ∀ d ∈ db.drafts, ¬ (d.sessionId = op.sessionId ∧ d.path = np) :=
      fun d hd hP => hex ⟨d, hd, hP⟩
    simp only [upsertAiDraft_insert_spec db op.sessionId op.path op.content op.summary _ np
      hnorm hnone]
    exact ⟨⟨op.sessionId, np, op.content, op.summary, true⟩, by simp, rfl, rfl, rfl⟩

/-- A racing upsert never clears an existing pending draft row. -/
theorem applyRaceOp_preserves (db : Db) (op : RaceOp) (sid np : JsString)
    (h : ∃ d ∈ db.drafts, d.sessionId = sid ∧ d.path = np ∧ d.needsPersist = true) :
    ∃ d ∈ (applyRaceOp db op).drafts,
      d.sessionId = sid ∧ d.path = np ∧ d.needsPersist = true := by
  unfold applyRaceOp
  rcases hs : sanitizeAiFilePath op.path with e | np'
  · simp only [upsertAiDraft, hs]
    exact h
  · by_cases hex : ∃ d ∈ db.drafts, d.sessionId = op.sessionId ∧ d.path = np'
    · simp only [upsertAiDraft_update_spec db op.sessionId op.path op.content op.summary _ np'
        hs hex]
      obtain ⟨d, hd, h1, h2, h3⟩ := h
      refine ⟨_, List.mem_map.mpr ⟨d, hd, rfl⟩, ?_⟩
      by_cases hcond : d.sessionId = op.sessionId ∧ d.path = np'
      · rw [if_pos hcond]
        exact ⟨h1, h2, rfl⟩
      · rw [if_neg hcond]
        exact ⟨h1, h2, h3⟩
    · have hnone : ∀ d ∈ db.drafts, ¬ (d.sessionId = op.sessionId ∧ d.path = np') :=
        fun d hd hP => hex ⟨d, hd, hP⟩
      simp only [upsertAiDraft_insert_spec db op.sessionId op.path op.content op.summary _ np'
        hs hnone]
      obtain ⟨d, hd, hrest⟩ := h
      exact ⟨d, by simp [hd], hrest⟩

/-- The whole sequence of racing upserts never clears a pending draft row. -/
theorem applyRace_preserves (race : List RaceOp) (sid np : JsString) :
    ∀ db : Db,
      (∃ d ∈ db.drafts, d.sessionId = sid ∧ d.path = np ∧ d.needsPersist = true) →
      ∃ d ∈ (applyRace race db).drafts,
        d.sessionId = sid ∧ d.path = np ∧ d.needsPersist = true := by
  induction race with
  | nil => intro db h; exact h
  | cons op rest ih =>
    intro db h
    exact ih (applyRaceOp db op) (applyRaceOp_preserves db op sid np h)

/-- If some racing upsert targets the canonical path `np` for session `sid`,
a pending draft row at `np` exists after all racing upserts ran. -/
theorem applyRace_establishes :
    ∀ (race : List RaceOp) (db : Db) (sid np : JsString),
      (∃ op ∈ race, op.sessionId = sid ∧ sanitizeAiFilePath op.path = .ok np) →
      ∃ d ∈ (applyRace race db).drafts,
        d.sessionId = sid ∧ d.path = np ∧ d.needsPersist = true := by
  intro race
  induction race with
  | nil => intro db sid np hop; simp at hop
  | cons op rest ih =>
    intro db sid np hop
    obtain ⟨op', hmem, h1, h2⟩ := hop
    rcases List.mem_cons.mp hmem with rfl | hmem'
    · have hest := applyRaceOp_establishes db op' np h2
      rw [h1] at hest
      exact applyRace_preserves rest sid np (applyRaceOp db op') hest
    · exact ih (applyRaceOp db op) sid np ⟨op', hmem', h1, h2⟩

/-! ## Claim theorems -/

/-- C3: `ensureFresh` returns the credential unchanged when more than 60 s of
validity remain; otherwise it invokes the token-refresh call, and on success
persists (cookie set) and returns the rotated credential, while on a non-2xx
refresh response it deletes the persisted credential and reports
`Unauthorized` (a `none` result).  A credential expiring 30 seconds in the
future triggers the refresh. -/
theorem C3_ensureFresh_refresh_contract (now : Int) (s : BitbucketSession)
    (configOk : Bool) (resp : RefreshHttpResponse) :
    (now < s.expiresAt - 60 * 1000 →
      ensureFreshSession now s configOk resp = ⟨some s, .unchangedCookie, false⟩) ∧
    (s.expiresAt - 60 * 1000 ≤ now →
      (ensureFreshSession now s configOk resp).refreshCalled = true ∧
      (∀ r, refreshAccessToken configOk now s resp = some r →
        ensureFreshSession now s configOk resp = ⟨some r, .setCookie r, true⟩) ∧
      (httpOk resp.status = false →
        ensureFreshSession now s configOk resp = ⟨none, .deletedCookie, true⟩)) ∧
    (s.expiresAt = now + 30 * 1000 →
      (ensureFreshSession now s configOk resp).refreshCalled = true) := by
  have main : s.expiresAt - 60 * 1000 ≤ now →
      (ensureFreshSession now s configOk resp).refreshCalled = true ∧
      (∀ r, refreshAccessToken configOk now s resp = some r →
        ensureFreshSession now s configOk resp = ⟨some r, .setCookie r, true⟩) ∧
      (httpOk resp.status = false →
        ensureFreshSession now s configOk resp = ⟨none, .deletedCookie, true⟩) := by
    intro h
    have hlt : ¬ (now < s.expiresAt - 60 * 1000) := by omega
    refine ⟨?_, ?_, ?_⟩
    · unfold ensureFreshSession
      rw [if_neg hlt]
      cases refreshAccessToken configOk now s resp <;> rfl
    · intro r hr
      unfold ensureFreshSession
      rw [if_neg hlt, hr]
    · intro hstatus
      unfold ensureFreshSession
      rw [if_neg hlt, refreshAccessToken_eq_none_of_notOk configOk now s resp hstatus]
  refine ⟨?_, main, ?_⟩
  · intro h
    unfold ensureFreshSession
    rw [if_pos h]
  · intro h
    exact (main (by omega)).1

/-- Witness for C3: a credential expiring 30 s in the future, with the refresh
endpoint answering 500, is refreshed (the refresh call happens), the stored
credential is deleted, and `Unauthorized` (`none`) is returned. -/
theorem C3_ensureFresh_refresh_contract_witness :
    ensureFreshSession 1000000 ⟨jsOf "tok", jsOf "ref", 1030000, jsOf "sid"⟩ true
        ⟨500, none, none, none⟩ = ⟨none, .deletedCookie, true⟩ := by
  exact ((C3_ensureFresh_refresh_contract 1000000 ⟨jsOf "tok", jsOf "ref", 1030000, jsOf "sid"⟩
      true ⟨500, none, none, none⟩).2.1 (by norm_num)).2.2 (by decide)

/-- C6: with a live session whose workspace slug is set, a persist call for a
session in which no draft has `needsPersist = true` fails with the distinct
`noPendingAiChanges` result, performs no remote interaction, leaves the
credential cookie alone, and leaves every session and draft row unchanged. -/
theorem C6_persist_no_pending (sid : JsString) (payloadTitle : Option JsString)
    (env : PersistEnv) (race : List RaceOp) (db : Db) (session : SessionRow)
    (hsess : sessionLookup db sid = some session)
    (hws : wsFalsy session.workspaceSlug = false)
    (hpend : pendingDraftsOf db sid = []) :
    persistPost (some sid) payloadTitle env race db = ⟨.noPendingAiChanges, db, false, []⟩ := by
  unfold persistPost
  simp [hsess, hws, hpend]

/-- Witness for C6 at a concrete database: one session, one already-persisted
draft, and a remote environment that would let everything succeed; the call
still short-circuits with `noPendingAiChanges` and an empty remote trace. -/
theorem C6_persist_no_pending_witness :
    persistPost (some (jsOf "s1")) none
        ⟨true, true, true, .found (jsOf "h"), 201, 201, 201, some (jsOf "7"),
          some (jsOf "http://pr"), 200⟩ []
        ⟨[⟨jsOf "s1", some (jsOf "L"), some (jsOf "w"), jsOf "docs", jsOf "main", false,
            some 1, none, none, none, none⟩],
          [⟨jsOf "s1", jsOf "ai/a.mdc", jsOf "v1", none, false⟩]⟩ =
      ⟨.noPendingAiChanges,
        ⟨[⟨jsOf "s1", some (jsOf "L"), some (jsOf "w"), jsOf "docs", jsOf "main", false,
            some 1, none, none, none, none⟩],
          [⟨jsOf "s1", jsOf "ai/a.mdc", jsOf "v1", none, false⟩]⟩, false, []⟩ := by
  exact C6_persist_no_pending (jsOf "s1") none _ [] _
    ⟨jsOf "s1", some (jsOf "L"), some (jsOf "w"), jsOf "docs", jsOf "main", false,
      some 1, none, none, none, none⟩ (by decide) (by decide) (by decide)

/-- C2: when the multi-file commit request answers non-2xx, persist aborts
with a typed failure (`commitFailed`, or `unauthorized` on a 401) before any
draft is cleared: the whole database — drafts and session persistence state —
is exactly as before, so a retry sees the same pending drafts. -/
theorem C2_commit_failure_aborts (sid : JsString) (payloadTitle : Option JsString)
    (env : PersistEnv) (race : List RaceOp) (db : Db) (session : SessionRow)
    (hashValue : JsString) (paths : List JsString)
    (hsess : sessionLookup db sid = some session)
    (hws : wsFalsy session.workspaceSlug = false)
    (hpend : (pendingDraftsOf db sid).isEmpty = false)
    (hconf : env.configOk = true)
    (hraw : env.rawSessionPresent = true)
    (hfresh : env.freshSessionOk = true)
    (hhash : env.branchTargetHash = .found hashValue)
    (hbranch : branchCreateFailed env session = false)
    (hnorm : normalizeDraftPaths (pendingDraftsOf db sid) = .ok paths)
    (hcommit : httpOk env.commitStatus = false) :
    (persistPost (some sid) payloadTitle env race db).db = db ∧
    ((persistPost (some sid) payloadTitle env race db).result = .commitFailed ∨
      (persistPost (some sid) payloadTitle env race db).result = .unauthorized) ∧
    pendingDraftsOf (persistPost (some sid) payloadTitle env race db).db sid =
      pendingDraftsOf db sid := by
  unfold persistPost
  simp only [hsess, hws, hpend, hconf, hraw, hfresh, hhash, hbranch, hnorm, hcommit]
  by_cases h401 : env.commitStatus = 401 <;> simp [h401]

/-- C10: path normalization is idempotent — a canonical path returned by a
successful `normalizeAiFilePath` normalizes again to itself. -/
theorem C10_normalize_idempotent (s p : JsString) (h : normalizeAiFilePath s = .ok p) :
    normalizeAiFilePath p = .ok p := by
  obtain ⟨hpre, hext, hdots⟩ := normalizeAiFilePath_ok_inversion s p h
  obtain ⟨c0, rest, d0, t, hp, hrev, hc0, hd0⟩ := canonical_shape p hpre hext
  subst hp
  have hfix := strip_pipeline_fixed c0 d0 rest t hc0 hd0 hrev
  unfold normalizeAiFilePath
  rw [if_neg (by simp : ¬ (c0 :: rest = []))]
  dsimp only []
  rw [hfix]
  rw [if_neg (by simp [hpre]), if_neg (by simp [hext]), if_neg (by simp [hdots])]

/-- Witness for C10: normalizing `"files/ai/a.mdc"` yields `"ai/a.mdc"`, which
normalizes to itself. -/
theorem C10_normalize_idempotent_witness :
    normalizeAiFilePath (jsOf "ai/a.mdc") = .ok (jsOf "ai/a.mdc") :=
  C10_normalize_idempotent (jsOf "files/ai/a.mdc") (jsOf "ai/a.mdc") (by decide)

/-- C7: (a) a remote tree with more eligible `.mdc` files than the
`MAX_FILES` cap, all of which fetch as text, assembles to a bundle with
`contextTruncated = true` and exactly `MAX_FILES` collected files; (b) a
single file whose body exceeds the 100,000-byte ceiling is cut at the ceiling
and flagged truncated at the file level; (c) the bundle-level truncation flag
is independent of file contents — any two successful assemblies over the same
listing agree on it. -/
theorem C7_context_truncation :
    (∀ (listing : FolderListing) (env : JsString → HttpFileResponse),
      listing.folderExists = true →
      (mdcEntries listing).length > MAX_FILES →
      (∀ e ∈ (mdcEntries listing).take MAX_FILES, ∃ p, e.entryPath = some p ∧
        httpOk (env p).status = true ∧ contentTypeNotText (env p).contentType = false) →
      ∃ ctx, createSessionContext listing env = .ok ctx ∧
        ctx.contextTruncated = true ∧ ctx.collectedFiles.length = MAX_FILES) ∧
    (∀ resp : HttpFileResponse, httpOk resp.status = true →
      contentTypeNotText resp.contentType = false →
      resp.body.length > MAX_BYTES_PER_FILE →
      fetchFileContent resp = .ok (some ⟨resp.body.take MAX_BYTES_PER_FILE, true⟩)) ∧
    (∀ (listing : FolderListing) (env₁ env₂ : JsString → HttpFileResponse)
        (ctx₁ ctx₂ : AssembledContext),
      createSessionContext listing env₁ = .ok ctx₁ →
      createSessionContext listing env₂ = .ok ctx₂ →
      ctx₁.contextTruncated = ctx₂.contextTruncated) := by
  refine ⟨?_, ?_, ?_⟩
  · intro listing env hex hcount hfetch
    obtain ⟨fs, b, hcollect, hlen⟩ :=
      collectFiles_all_ok env ((mdcEntries listing).take MAX_FILES) hfetch
    have htake : ((mdcEntries listing).take MAX_FILES).length = MAX_FILES := by
      rw [List.length_take]
      omega
    refine ⟨⟨true,
        decide (listing.files.length > MAX_FILES) ||
          decide ((mdcEntries listing).length > ((mdcEntries listing).take MAX_FILES).length),
        b, fs, if ¬ b = true then [] else sortBy filePathLe fs⟩, ?_, ?_, ?_⟩
    · unfold createSessionContext
      rw [if_neg (by simp [hex])]
      simp only [hcollect]
    · show (decide (listing.files.length > MAX_FILES) ||
        decide ((mdcEntries listing).length > ((mdcEntries listing).take MAX_FILES).length)) = true
      simp only [Bool.or_eq_true, decide_eq_true_eq]
      right
      omega
    · show fs.length = MAX_FILES
      omega
  · intro resp hok hct hbig
    rw [fetchFileContent_text_spec resp hok hct]
    simp [hbig]
  · intro listing env₁ env₂ ctx₁ ctx₂ h1 h2
    rw [createSessionContext_truncated_formula listing env₁ ctx₁ h1,
      createSessionContext_truncated_formula listing env₂ ctx₂ h2]

/-- Witness for C7: a listing of 21 identical `.mdc` entries over a text
backend yields a truncated bundle of exactly 20 files, and a 100,001-byte file
is cut to 100,000 bytes and flagged truncated. -/
theorem C7_context_truncation_witness :
    (∃ ctx, createSessionContext ⟨true, List.replicate 21 ⟨some (jsOf "ai/a.mdc")⟩⟩
        (fun _ => ⟨200, some (jsOf "text/plain"), [104, 105]⟩) = .ok ctx ∧
      ctx.contextTruncated = true ∧ ctx.collectedFiles.length = MAX_FILES) ∧
    fetchFileContent ⟨200, some (jsOf "text/plain"), List.replicate 100001 7⟩ =
      .ok (some ⟨(List.replicate 100001 7).take MAX_BYTES_PER_FILE, true⟩) := by
  constructor
  · refine C7_context_truncation.1 ⟨true, List.replicate 21 ⟨some (jsOf "ai/a.mdc")⟩⟩
      (fun _ => ⟨200, some (jsOf "text/plain"), [104, 105]⟩) rfl (by decide) ?_
    intro e he
    have hmem : e ∈ List.replicate 21 (⟨some (jsOf "ai/a.mdc")⟩ : ListingEntry) := by
      have hsub : List.Sublist
          ((mdcEntries ⟨true, List.replicate 21 ⟨some (jsOf "ai/a.mdc")⟩⟩).take MAX_FILES)
          (List.replicate 21 (⟨some (jsOf "ai/a.mdc")⟩ : ListingEntry)) :=
        (List.take_sublist _ _).trans (List.filter_sublist _)
      exact hsub.mem he
    rw [List.eq_of_mem_replicate hmem]
    exact ⟨jsOf "ai/a.mdc", rfl, by decide, by decide⟩
  · refine C7_context_truncation.2.1 ⟨200, some (jsOf "text/plain"), List.replicate 100001 7⟩
      (by decide) (by decide) ?_
    show (List.replicate 100001 7).length > MAX_BYTES_PER_FILE
    rw [List.length_replicate]
    norm_num [MAX_BYTES_PER_FILE]

/-- C9: the bootstrap flag records exactly whether a fetched file carries the
bootstrap name; when it is absent the stored context file list is empty even
though files were collected, and when it is present the stored list is the
collected files sorted by path (a sorted permutation). -/
theorem C9_bootstrap_gating (listing : FolderListing) (env : JsString → HttpFileResponse)
    (ctx : AssembledContext) (h : createSessionContext listing env = .ok ctx) :
    ctx.contextHasBootstrap = ctx.collectedFiles.any (fun f => isBootstrapPath f.path) ∧
    (ctx.contextHasBootstrap = false → ctx.contextFiles = []) ∧
    (ctx.contextHasBootstrap = true →
      ctx.contextFiles = sortBy filePathLe ctx.collectedFiles ∧
      ctx.contextFiles.Perm ctx.collectedFiles ∧
      ctx.contextFiles.Pairwise (fun a b => filePathLe a b = true)) := by
  unfold createSessionContext at h
  by_cases hex : listing.folderExists = true
  · rw [if_neg (by simp [hex])] at h
    rcases heq : collectFiles env ((mdcEntries listing).take MAX_FILES) with err | fsb
    · simp only [heq] at h
      exact absurd h (by simp)
    · obtain ⟨fs, b⟩ := fsb
      simp only [heq] at h
      have hctx := Except.ok.inj h
      subst hctx
      refine ⟨collectFiles_bootstrap env _ fs b heq, ?_, ?_⟩
      · intro hb
        simp only [AssembledContext.contextHasBootstrap] at hb
        simp [hb]
      · intro hb
        simp only [AssembledContext.contextHasBootstrap] at hb
        simp only [AssembledContext.contextFiles, AssembledContext.collectedFiles, hb]
        refine ⟨by simp, ?_, ?_⟩
        · simpa using sortBy_perm filePathLe fs
        · simpa using sortBy_pairwise filePathLe
            (fun a b => leChars_total a.path b.path)
            (fun a b c => leChars_trans a.path b.path c.path) fs
  · have hex' : listing.folderExists = false := by simpa using hex
    rw [if_pos (by simp [hex'])] at h
    have hctx := Except.ok.inj h
    subst hctx
    exact ⟨rfl, fun _ => rfl, fun hb => by simp at hb⟩

/-- Witness for C9: two data files without the bootstrap file collect two
files but store an empty context, while adding the bootstrap file stores the
collected files sorted by path. -/
theorem C9_bootstrap_gating_witness :
    (∃ ctx, createSessionContext ⟨true, [⟨some (jsOf "ai/b.mdc")⟩, ⟨some (jsOf "ai/a.mdc")⟩]⟩
        (fun _ => ⟨200, some (jsOf "text/plain"), [104]⟩) = .ok ctx ∧
      ctx.collectedFiles.length = 2 ∧ ctx.contextFiles = []) ∧
    (∃ ctx, createSessionContext
        ⟨true, [⟨some (jsOf "ai/b.mdc")⟩, ⟨some (jsOf "ai/ai-bootstrap.mdc")⟩]⟩
        (fun _ => ⟨200, some (jsOf "text/plain"), [104]⟩) = .ok ctx ∧
      ctx.contextFiles = [⟨jsOf "ai/ai-bootstrap.mdc", [104], false⟩,
        ⟨jsOf "ai/b.mdc", [104], false⟩]) := by
  constructor
  · refine ⟨_, rfl, ?_, ?_⟩
    · decide
    · have h := C9_bootstrap_gating ⟨true, [⟨some (jsOf "ai/b.mdc")⟩, ⟨some (jsOf "ai/a.mdc")⟩]⟩
        (fun _ => ⟨200, some (jsOf "text/plain"), [104]⟩) _ rfl
      exact h.2.1 (by decide)
  · refine ⟨_, rfl, ?_⟩
    · have h := C9_bootstrap_gating
        ⟨true, [⟨some (jsOf "ai/b.mdc")⟩, ⟨some (jsOf "ai/ai-bootstrap.mdc")⟩]⟩
        (fun _ => ⟨200, some (jsOf "text/plain"), [104]⟩) _ rfl
      rw [(h.2.2 (by decide)).1]
      decide

/-- C8 counterexample: a durable match named `X` and a context-block match
whose parent id is `X` both survive the merge — the deduplication key is
source-qualified, so the search returns two results for the same parent id. -/
theorem C8_cross_source_duplicate_counterexample :
    ((findRelevantContent [⟨jsOf "X", (⟨9, 10, by norm_num, by norm_num⟩ : ℚ)⟩]
        [⟨jsOf "X", jsOf "ctx", jsOf "hello world"⟩]
        [(⟨1, 2, by norm_num, by norm_num⟩ : ℚ)] 6).filter
      (fun r => decide (r.parentId.getD r.name = jsOf "X"))).length = 2 := by
  decide

/-- C8 amended: the search merges durable and context matches, deduplicates by
the source-qualified key (source + parent id) — so a durable match and a
context-block match with the same parent id each survive — sorts by
descending similarity, and truncates to `limit`. -/
theorem C8_search_merge_amended (rows : List EmbeddingRow)
    (blocks : List RetrievalContextBlock) (chunkSims : List ℚ) (limit : Nat)
    (hlim : 1 ≤ limit) :
    (findRelevantContent rows blocks chunkSims limit).Pairwise
      (fun a b => dedupKey a ≠ dedupKey b) ∧
    (findRelevantContent rows blocks chunkSims limit).Pairwise
      (fun a b => b.similarity ≤ a.similarity) ∧
    (findRelevantContent rows blocks chunkSims limit).length ≤ limit ∧
    (∀ r ∈ findRelevantContent rows blocks chunkSims limit,
      r ∈ databaseResultsOf rows limit ∨ r ∈ buildContextMatches blocks chunkSims) := by
  have hsub : (findRelevantContent rows blocks chunkSims limit).Sublist
      (sortBy descSim (databaseResultsOf rows limit ++ buildContextMatches blocks chunkSims)) :=
    dedupTake_sublist limit _ [] 0
  refine ⟨(dedupTake_keys limit _ [] 0).2, ?_, ?_, ?_⟩
  · have hsorted := sortBy_pairwise descSim descSim_total descSim_trans
      (databaseResultsOf rows limit ++ buildContextMatches blocks chunkSims)
    exact (hsorted.sublist hsub).imp (by simp [descSim])
  · have heq : findRelevantContent rows blocks chunkSims limit =
        dedupTake limit [] 0 (sortBy descSim
          (databaseResultsOf rows limit ++ buildContextMatches blocks chunkSims)) := rfl
    rw [heq]
    have := dedupTake_length limit
      (sortBy descSim (databaseResultsOf rows limit ++ buildContextMatches blocks chunkSims))
      [] 0 (by omega)
    omega
  · intro r hr
    have hmem := (sortBy_perm descSim _).mem_iff.mp (hsub.mem hr)
    simpa using hmem

/-- Witness for the amended C8 at the counterexample's own input. -/
theorem C8_search_merge_amended_witness :
    (findRelevantContent [⟨jsOf "X", (⟨9, 10, by norm_num, by norm_num⟩ : ℚ)⟩]
        [⟨jsOf "X", jsOf "ctx", jsOf "hello world"⟩]
        [(⟨1, 2, by norm_num, by norm_num⟩ : ℚ)] 6).length ≤ 6 := by
  exact (C8_search_merge_amended [⟨jsOf "X", (⟨9, 10, by norm_num, by norm_num⟩ : ℚ)⟩]
    [⟨jsOf "X", jsOf "ctx", jsOf "hello world"⟩]
    [(⟨1, 2, by norm_num, by norm_num⟩ : ℚ)] 6 (by norm_num)).2.2.1

/-- C1 counterexample: a draft re-queued *during* the persist at a path that
is in the committed snapshot is erroneously cleared — the final drafts table
holds the racing content `v2` (which was never committed) with
`needsPersist = false`, contradicting the claim that drafts queued during a
persist remain pending. -/
theorem C1_persist_race_counterexample :
    ((persistPost (some (jsOf "s1")) none
        ⟨true, true, true, .found (jsOf "h"), 201, 201, 201, some (jsOf "7"),
          some (jsOf "http://pr"), 200⟩
        [⟨jsOf "s1", jsOf "ai/a.mdc", jsOf "v2", none⟩]
        ⟨[⟨jsOf "s1", some (jsOf "L"), some (jsOf "w"), jsOf "docs", jsOf "main", true,
            some 1, none, none, none, none⟩],
          [⟨jsOf "s1", jsOf "ai/a.mdc", jsOf "v1", none, true⟩]⟩).db.drafts.filter
      (fun d => decide (d.path = jsOf "ai/a.mdc"))) =
      [⟨jsOf "s1", jsOf "ai/a.mdc", jsOf "v2", none, false⟩] := by
  decide

/-- C1 amended: after a successful persist, (a) every draft whose path was in
the committed snapshot has `needsPersist = false` — including a draft
re-queued at such a path during the persist, whose newer content is cleared
without having been committed; (b) the session's `persistHasChanges` is true
iff some remaining draft has `needsPersist = true`; (c) a draft queued during
the persist at a path *not* among the committed snapshot paths remains
`needsPersist = true`. -/
theorem C1_persist_race_amended (sid : JsString) (payloadTitle : Option JsString)
    (env : PersistEnv) (race : List RaceOp) (db : Db) (session : SessionRow)
    (hashValue : JsString) (paths : List JsString)
    (hsess : sessionLookup db sid = some session)
    (hws : wsFalsy session.workspaceSlug = false)
    (hpend : (pendingDraftsOf db sid).isEmpty = false)
    (hconf : env.configOk = true)
    (hraw : env.rawSessionPresent = true)
    (hfresh : env.freshSessionOk = true)
    (hhash : env.branchTargetHash = .found hashValue)
    (hbranch : branchCreateFailed env session = false)
    (hnorm : normalizeDraftPaths (pendingDraftsOf db sid) = .ok paths)
    (hcommit : httpOk env.commitStatus = true)
    (hprc : session.persistPrId = none → httpOk env.prCreateStatus = true)
    (hpru : httpOk env.prUpdateStatus = true) :
    (∃ st prUrl, (persistPost (some sid) payloadTitle env race db).result =
      .success st prUrl) ∧
    (∀ d ∈ (persistPost (some sid) payloadTitle env race db).db.drafts,
      d.sessionId = sid → d.path ∈ (pendingDraftsOf db sid).map (fun d => d.path) →
      d.needsPersist = false) ∧
    (∀ s ∈ (persistPost (some sid) payloadTitle env race db).db.sessions, s.id = sid →
      (s.persistHasChanges = true ↔
        ∃ d ∈ (persistPost (some sid) payloadTitle env race db).db.drafts,
          d.sessionId = sid ∧ d.needsPersist = true)) ∧
    (∀ np, np ∉ (pendingDraftsOf db sid).map (fun d => d.path) →
      (∃ op ∈ race, op.sessionId = sid ∧ sanitizeAiFilePath op.path = .ok np) →
      ∃ d ∈ (persistPost (some sid) payloadTitle env race db).db.drafts,
        d.sessionId = sid ∧ d.path = np ∧ d.needsPersist = true) := by
  obtain ⟨prId, prUrl, prCalls, hpr⟩ := prStep_ok env session
    (desiredTitleOf payloadTitle session (pendingDraftsOf db sid)) hprc hpru
  have hrun : persistPost (some sid) payloadTitle env race db =
      ⟨.success (if session.persistPrId.isSome then .updated else .created) prUrl,
        persistFinalize sid ((pendingDraftsOf db sid).map (fun d => d.path)) prId prUrl
          (featureBranchOf session)
          (desiredTitleOf payloadTitle session (pendingDraftsOf db sid))
          (applyRace race db), false,
        ([RemoteCall.ensureFreshAuth, RemoteCall.fetchBranches] ++
            (if session.persistPrBranch.isNone then [RemoteCall.createBranch] else []) ++
            [RemoteCall.commitFiles]) ++ prCalls⟩ := by
    unfold persistPost
    simp only [hsess, hws, hpend, hconf, hraw, hfresh, hhash, hbranch, hnorm, hcommit, hpr]
    simp
  rw [hrun]
  refine ⟨⟨_, prUrl, rfl⟩, ?_, ?_, ?_⟩
  · intro d hd h1 h2
    simp only [persistFinalize, clearDrafts] at hd
    obtain ⟨d0, hd0, rfl⟩ := List.mem_map.mp hd
    by_cases hcond : d0.sessionId = sid ∧
        d0.path ∈ (pendingDraftsOf db sid).map (fun d => d.path)
    · rw [if_pos hcond]
    · rw [if_neg hcond] at h1 h2 ⊢
      exact absurd ⟨h1, h2⟩ hcond
  · intro s hs h1
    simp only [persistFinalize] at hs ⊢
    obtain ⟨s0, hs0, rfl⟩ := List.mem_map.mp hs
    by_cases hid : s0.id = sid
    · rw [if_pos hid]
      show decide (0 < (pendingDraftsOf _ sid).length) = true ↔ _
      rw [decide_eq_true_iff]
      exact pendingDraftsOf_pos_iff _ sid
    · rw [if_neg hid] at h1 ⊢
      exact absurd h1 hid
  · intro np hnp hop
    obtain ⟨d, hd, h1, h2, h3⟩ := applyRace_establishes race db sid np hop
    have hcond : ¬ (d.sessionId = sid ∧
        d.path ∈ (pendingDraftsOf db sid).map (fun x => x.path)) := by
      intro hc
      exact hnp (h2 ▸ hc.2)
    simp only [persistFinalize, clearDrafts]
    exact ⟨d, List.mem_map.mpr ⟨d, hd, by rw [if_neg hcond]⟩, h1, h2, h3⟩

/-- Witness for the amended C1: a draft queued during the persist at the new
path `ai/b.mdc` (not among the committed paths) remains pending afterwards. -/
theorem C1_persist_race_amended_witness :
    ∃ d ∈ (persistPost (some (jsOf "s1")) none
        ⟨true, true, true, .found (jsOf "h"), 201, 201, 201, some (jsOf "7"),
          some (jsOf "http://pr"), 200⟩
        [⟨jsOf "s1", jsOf "ai/b.mdc", jsOf "v2", none⟩]
        ⟨[⟨jsOf "s1", some (jsOf "L"), some (jsOf "w"), jsOf "docs", jsOf "main", true,
            some 1, none, none, none, none⟩],
          [⟨jsOf "s1", jsOf "ai/a.mdc", jsOf "v1", none, true⟩]⟩).db.drafts,
      d.sessionId = jsOf "s1" ∧ d.path = jsOf "ai/b.mdc" ∧ d.needsPersist = true := by
  exact (C1_persist_race_amended (jsOf "s1") none _ _ _
    ⟨jsOf "s1", some (jsOf "L"), some (jsOf "w"), jsOf "docs", jsOf "main", true,
      some 1, none, none, none, none⟩ (jsOf "h") [jsOf "ai/a.mdc"]
    (by decide) (by decide) (by decide) (by decide) (by decide) (by decide) (by decide)
    (by decide) (by decide) (by decide) (by decide) (by decide)).2.2.2
    (jsOf "ai/b.mdc") (by decide)
    ⟨⟨jsOf "s1", jsOf "ai/b.mdc", jsOf "v2", none⟩, by simp, rfl, by decide⟩

/-- C4 counterexample: `"ai/../evil.txt"` contains the traversal token and has
the canonical root prefix but not the mandated extension; the claim predicts
`outOfScope`, yet the extension check runs before the traversal check and the
code reports `extensionRequired`. -/
theorem C4_counterexample :
    containsDotDot (jsOf "ai/../evil.txt") = true ∧
    normalizeAiFilePath (jsOf "ai/../evil.txt") = .error .extensionRequired ∧
    normalizeAiFilePath (jsOf "ai/../evil.txt") ≠ .error .outOfScope := by
  decide

/-- C4 amended: for an input containing `..`, normalization rejects it, with
`outOfScope` whenever the stripped path lacks the `ai/` prefix or carries the
`.mdc` extension, but with `extensionRequired` when the prefix is present and
the extension is missing, because the extension check precedes the traversal
check. -/
theorem C4_dotdot_rejected_amended (s : JsString) (h : containsDotDot s = true) :
    normalizeAiFilePath s =
      .error
        (if startsWithAiDir (stripLegacySegments (stripLeadingSlashes (jsTrim s))) then
          (if endsWithMdc (stripLegacySegments (stripLeadingSlashes (jsTrim s))) then
            AiPathError.outOfScope
          else AiPathError.extensionRequired)
        else AiPathError.outOfScope) := by
  have hne : s ≠ [] := by
    intro hEq
    rw [hEq] at h
    simp [containsDotDot] at h
  have hcdd : containsDotDot (stripLegacySegments (stripLeadingSlashes (jsTrim s))) = true :=
    containsDotDot_stripLegacySegments _
      (containsDotDot_stripLeadingSlashes _ (containsDotDot_jsTrim _ h))
  unfold normalizeAiFilePath
  rw [if_neg hne]
  by_cases h1 : startsWithAiDir (stripLegacySegments (stripLeadingSlashes (jsTrim s))) = true
  · by_cases h2 : endsWithMdc (stripLegacySegments (stripLeadingSlashes (jsTrim s))) = true
    · simp [h1, h2, hcdd]
    · simp [h1, h2]
  · simp [h1]

/-- Witness for the amended C4: a `..` path with prefix and extension is
`outOfScope`. -/
theorem C4_dotdot_rejected_amended_witness :
    normalizeAiFilePath (jsOf "ai/../a.mdc") = .error .outOfScope := by
  rw [C4_dotdot_rejected_amended (jsOf "ai/../a.mdc") (by decide)]
  decide

/-- C5: upserting the same (sessionId, path) twice with different contents
inserts exactly one draft row; after the second call that row carries the
latest content and summary with `needsPersist = true`, and the session's
draft count was incremented only once (by the first, inserting call). -/
theorem C5_upsert_twice_single_row (db : Db) (sid path c1 c2 : JsString)
    (s1 s2 : Option JsString) (n0 : Nat) (np : JsString)
    (hnorm : sanitizeAiFilePath path = .ok np)
    (hnone : ∀ d ∈ db.drafts, ¬ (d.sessionId = sid ∧ d.path = np)) :
    ∃ db1 db2 : Db,
      upsertAiDraft db sid path c1 s1 n0 = .ok (db1, np, n0 + 1) ∧
      upsertAiDraft db1 sid path c2 s2 (n0 + 1) = .ok (db2, np, n0 + 1) ∧
      (db2.drafts.filter (fun d => decide (d.sessionId = sid ∧ d.path = np))).length = 1 ∧
      (∀ d ∈ db2.drafts, d.sessionId = sid → d.path = np →
        d.needsPersist = true ∧ d.content = c2 ∧ d.summary = s2) ∧
      (∀ s ∈ db2.sessions, s.id = sid →
        s.persistHasChanges = true ∧ s.persistDraftCount = some (n0 + 1)) := by
  refine ⟨_, _, upsertAiDraft_insert_spec db sid path c1 s1 n0 np hnorm hnone,
    upsertAiDraft_update_spec _ sid path c2 s2 (n0 + 1) np hnorm
      ⟨⟨sid, np, c1, s1, true⟩, by simp, rfl, rfl⟩, ?_, ?_, ?_⟩
  · rw [List.map_append, List.filter_append]
    have hfil : db.drafts.map (fun d =>
        if d.sessionId = sid ∧ d.path = np then
          { d with content := c2, summary := s2, needsPersist := true }
        else d) = db.drafts := by
      rw [List.map_congr_left (g := fun d => d) (fun d hd => if_neg (hnone d hd))]
      exact List.map_id' db.drafts
    rw [hfil, List.filter_eq_nil_iff.mpr (fun d hd => by simpa using hnone d hd)]
    simp
  · intro d hd h1 h2
    rw [List.map_append] at hd
    rcases List.mem_append.mp hd with hmem | hmem
    · have hfil : db.drafts.map (fun d =>
          if d.sessionId = sid ∧ d.path = np then
            { d with content := c2, summary := s2, needsPersist := true }
          else d) = db.drafts := by
        rw [List.map_congr_left (g := fun d => d) (fun d hd => if_neg (hnone d hd))]
        exact List.map_id' db.drafts
      rw [hfil] at hmem
      exact absurd ⟨h1, h2⟩ (hnone d hmem)
    · simp only [List.map_cons, List.map_nil, List.mem_singleton] at hmem
      subst hmem
      simp
  · intro s hs h1
    rw [List.map_map] at hs
    obtain ⟨s0, hs0, rfl⟩ := List.mem_map.mp hs
    by_cases h : s0.id = sid
    · simp [Function.comp, h]
    · exfalso
      simp [Function.comp, h] at h1

/-- Witness for C5 at a concrete database: two upserts of `ai/notes/a.mdc`
leave one row with the second content and a once-incremented draft count. -/
theorem C5_upsert_twice_single_row_witness :
    ∃ db1 db2 : Db,
      upsertAiDraft ⟨[⟨jsOf "s1", none, some (jsOf "w"), jsOf "docs", jsOf "main", false,
          some 0, none, none, none, none⟩], []⟩
          (jsOf "s1") (jsOf "ai/notes/a.mdc") (jsOf "hello") (some (jsOf "first")) 0 =
        .ok (db1, jsOf "ai/notes/a.mdc", 1) ∧
      upsertAiDraft db1 (jsOf "s1") (jsOf "ai/notes/a.mdc") (jsOf "world")
          (some (jsOf "second")) 1 = .ok (db2, jsOf "ai/notes/a.mdc", 1) ∧
      (db2.drafts.filter (fun d =>
        decide (d.sessionId = jsOf "s1" ∧ d.path = jsOf "ai/notes/a.mdc"))).length = 1 ∧
      (∀ d ∈ db2.drafts, d.sessionId = jsOf "s1" → d.path = jsOf "ai/notes/a.mdc" →
        d.needsPersist = true ∧ d.content = jsOf "world" ∧ d.summary = some (jsOf "second")) ∧
      (∀ s ∈ db2.sessions, s.id = jsOf "s1" →
        s.persistHasChanges = true ∧ s.persistDraftCount = some 1) := by
  exact C5_upsert_twice_single_row _ (jsOf "s1") (jsOf "ai/notes/a.mdc") (jsOf "hello")
    (jsOf "world") (some (jsOf "first")) (some (jsOf "second")) 0 (jsOf "ai/notes/a.mdc")
    (by decide) (by simp)

/-- Witness for C2: a commit endpoint answering 500 leaves the single pending
draft pending and the session row untouched. -/
theorem C2_commit_failure_aborts_witness :
    (persistPost (some (jsOf "s1")) none
        ⟨true, true, true, .found (jsOf "h"), 201, 500, 201, some (jsOf "7"),
          some (jsOf "http://pr"), 200⟩ []
        ⟨[⟨jsOf "s1", some (jsOf "L"), some (jsOf "w"), jsOf "docs", jsOf "main", true,
            some 1, none, none, none, none⟩],
          [⟨jsOf "s1", jsOf "ai/a.mdc", jsOf "v1", none, true⟩]⟩).db =
      ⟨[⟨jsOf "s1", some (jsOf "L"), some (jsOf "w"), jsOf "docs", jsOf "main", true,
          some 1, none, none, none, none⟩],
        [⟨jsOf "s1", jsOf "ai/a.mdc", jsOf "v1", none, true⟩]⟩ := by
  exact (C2_commit_failure_aborts (jsOf "s1") none _ [] _
    ⟨jsOf "s1", some (jsOf "L"), some (jsOf "w"), jsOf "docs", jsOf "main", true,
      some 1, none, none, none, none⟩ (jsOf "h") [jsOf "ai/a.mdc"]
    (by decide) (by decide) (by decide) (by decide) (by decide) (by decide) (by decide)
    (by decide) (by decide) (by decide)).1

end Strata
